import Mathlib

/-!
Verification of the agentic-builder orchestration core.

This file gives a shallow embedding, in Lean 4, of the parts of the
`agentic_builder` Python package that the verified properties concern:

* the static agent registry (`agents/configs.py`, `common/types.py`);
* the dependency resolver (`orchestration/workflows.py` topological sort and
  `orchestration/parallel_engine.py` phase computation);
* artifact path validation (`orchestration/parallel_engine.py` and
  `orchestration/workflow_engine.py`);
* the durable task store manifest (`pms/task_file_store.py`);
* the session manager status updates (`orchestration/session_manager.py`);
* the event emitter (`common/events.py`);
* the response parser (`agents/response_parser.py`);
* the XML context serializer (`pms/context_serializer.py`).

Conventions of the embedding:

* Python strings are modelled as Lean `String` or `List Char` (the latter where
  character-level reasoning is needed).
* Python dictionaries keyed by enum values are modelled as total functions or
  association lists, as noted at each definition.
* Exceptions (`raise ValueError(...)`, `raise RuntimeError(...)`) are modelled
  with `Except String`.
* Recursion that Python expresses with unbounded call stacks is expressed with
  an explicit fuel parameter; a lemma proves the fuel bound used by the
  top-level entry point is never exhausted, so the extra `fuel` error branch is
  unreachable.
* The filesystem is modelled as a list of existing absolute paths (component
  lists), without symbolic links.
-/

set_option maxHeartbeats 1000000

/-! ## Agent data model (`common/types.py`, `agents/configs.py`) -/

/-- `AgentType` from `common/types.py`: the enumeration of agent roles. -/
inductive AgentType where
  | PM | ARCHITECT | UIUX_GUI | UIUX_CLI | TEST | CQR | SR | DOE
  | TL_UI_WEB | DEV_UI_WEB | TL_UI_MOBILE | DEV_UI_MOBILE
  | TL_UI_DESKTOP | DEV_UI_DESKTOP | TL_UI_CLI | DEV_UI_CLI
  | TL_CORE_API | DEV_CORE_API | TL_CORE_SYSTEMS | DEV_CORE_SYSTEMS
  | TL_CORE_LIBRARY | DEV_CORE_LIBRARY
  | DEV_PLATFORM_IOS | DEV_PLATFORM_ANDROID | DEV_PLATFORM_WINDOWS
  | DEV_PLATFORM_LINUX | DEV_PLATFORM_MACOS | DEV_PLATFORM_EMBEDDED
  | DEV_INTEGRATION_DATABASE | DEV_INTEGRATION_API
  | DEV_INTEGRATION_NETWORK | DEV_INTEGRATION_HARDWARE
  | TL_CONTENT | DEV_CONTENT | TL_GRAPHICS | DEV_GRAPHICS
  | UIUX | TL_FRONTEND | DEV_FRONTEND | TL_BACKEND | DEV_BACKEND
  deriving DecidableEq, Repr, Fintype

/-- The string `.value` of each `AgentType` member. -/
def AgentType.value : AgentType → String
  | .PM => "PM" | .ARCHITECT => "ARCHITECT" | .UIUX_GUI => "UIUX_GUI"
  | .UIUX_CLI => "UIUX_CLI" | .TEST => "TEST" | .CQR => "CQR" | .SR => "SR"
  | .DOE => "DOE" | .TL_UI_WEB => "TL_UI_WEB" | .DEV_UI_WEB => "DEV_UI_WEB"
  | .TL_UI_MOBILE => "TL_UI_MOBILE" | .DEV_UI_MOBILE => "DEV_UI_MOBILE"
  | .TL_UI_DESKTOP => "TL_UI_DESKTOP" | .DEV_UI_DESKTOP => "DEV_UI_DESKTOP"
  | .TL_UI_CLI => "TL_UI_CLI" | .DEV_UI_CLI => "DEV_UI_CLI"
  | .TL_CORE_API => "TL_CORE_API" | .DEV_CORE_API => "DEV_CORE_API"
  | .TL_CORE_SYSTEMS => "TL_CORE_SYSTEMS" | .DEV_CORE_SYSTEMS => "DEV_CORE_SYSTEMS"
  | .TL_CORE_LIBRARY => "TL_CORE_LIBRARY" | .DEV_CORE_LIBRARY => "DEV_CORE_LIBRARY"
  | .DEV_PLATFORM_IOS => "DEV_PLATFORM_IOS" | .DEV_PLATFORM_ANDROID => "DEV_PLATFORM_ANDROID"
  | .DEV_PLATFORM_WINDOWS => "DEV_PLATFORM_WINDOWS" | .DEV_PLATFORM_LINUX => "DEV_PLATFORM_LINUX"
  | .DEV_PLATFORM_MACOS => "DEV_PLATFORM_MACOS" | .DEV_PLATFORM_EMBEDDED => "DEV_PLATFORM_EMBEDDED"
  | .DEV_INTEGRATION_DATABASE => "DEV_INTEGRATION_DATABASE"
  | .DEV_INTEGRATION_API => "DEV_INTEGRATION_API"
  | .DEV_INTEGRATION_NETWORK => "DEV_INTEGRATION_NETWORK"
  | .DEV_INTEGRATION_HARDWARE => "DEV_INTEGRATION_HARDWARE"
  | .TL_CONTENT => "TL_CONTENT" | .DEV_CONTENT => "DEV_CONTENT"
  | .TL_GRAPHICS => "TL_GRAPHICS" | .DEV_GRAPHICS => "DEV_GRAPHICS"
  | .UIUX => "UIUX" | .TL_FRONTEND => "TL_FRONTEND" | .DEV_FRONTEND => "DEV_FRONTEND"
  | .TL_BACKEND => "TL_BACKEND" | .DEV_BACKEND => "DEV_BACKEND"

/-- All members of the `AgentType` enum, in declaration order. -/
def allAgentTypes : List AgentType :=
  [.PM, .ARCHITECT, .UIUX_GUI, .UIUX_CLI, .TEST, .CQR, .SR, .DOE,
   .TL_UI_WEB, .DEV_UI_WEB, .TL_UI_MOBILE, .DEV_UI_MOBILE,
   .TL_UI_DESKTOP, .DEV_UI_DESKTOP, .TL_UI_CLI, .DEV_UI_CLI,
   .TL_CORE_API, .DEV_CORE_API, .TL_CORE_SYSTEMS, .DEV_CORE_SYSTEMS,
   .TL_CORE_LIBRARY, .DEV_CORE_LIBRARY,
   .DEV_PLATFORM_IOS, .DEV_PLATFORM_ANDROID, .DEV_PLATFORM_WINDOWS,
   .DEV_PLATFORM_LINUX, .DEV_PLATFORM_MACOS, .DEV_PLATFORM_EMBEDDED,
   .DEV_INTEGRATION_DATABASE, .DEV_INTEGRATION_API,
   .DEV_INTEGRATION_NETWORK, .DEV_INTEGRATION_HARDWARE,
   .TL_CONTENT, .DEV_CONTENT, .TL_GRAPHICS, .DEV_GRAPHICS,
   .UIUX, .TL_FRONTEND, .DEV_FRONTEND, .TL_BACKEND, .DEV_BACKEND]

/-- Python `AgentType(name)` constructor lookup: the inverse of `.value`,
failing (`ValueError`) on unknown strings, modelled as `Option`. -/
def agentTypeOfValue (s : String) : Option AgentType :=
  allAgentTypes.find? (fun a : AgentType => a.value = s)

/-- `AGENT_TYPE_ALIASES` / `resolve_agent_type` from `common/types.py`. -/
def resolve_agent_type : AgentType → AgentType
  | .UIUX => .UIUX_GUI
  | .TL_FRONTEND => .TL_UI_WEB
  | .DEV_FRONTEND => .DEV_UI_WEB
  | .TL_BACKEND => .TL_CORE_API
  | .DEV_BACKEND => .DEV_CORE_API
  | a => a

/-- `ModelTier` from `common/types.py`. -/
inductive ModelTier where
  | OPUS | SONNET | HAIKU
  deriving DecidableEq, Repr

/-- `WorkflowStatus` from `common/types.py`. -/
inductive WorkflowStatus where
  | PENDING | RUNNING | PAUSED | COMPLETED | FAILED | CANCELLED
  deriving DecidableEq, Repr

/-- `AgentConfig` from `agents/configs.py`. -/
structure AgentConfig where
  type : AgentType
  model_tier : ModelTier
  dependencies : List AgentType
  layer : String
  deriving DecidableEq, Repr

/-- `AGENT_CONFIGS_MAP` from `agents/configs.py`, as a total function on the
enum (the Python dict has an entry for every `AgentType` member). -/
def AGENT_CONFIGS_MAP : AgentType → AgentConfig
  | .PM => ⟨.PM, .OPUS, [], "universal"⟩
  | .ARCHITECT => ⟨.ARCHITECT, .OPUS, [.PM], "universal"⟩
  | .UIUX_GUI => ⟨.UIUX_GUI, .OPUS, [.PM], "universal"⟩
  | .UIUX_CLI => ⟨.UIUX_CLI, .SONNET, [.PM], "universal"⟩
  | .TEST => ⟨.TEST, .SONNET, [], "universal"⟩
  | .CQR => ⟨.CQR, .SONNET, [], "universal"⟩
  | .SR => ⟨.SR, .OPUS, [], "universal"⟩
  | .DOE => ⟨.DOE, .SONNET, [], "universal"⟩
  | .TL_UI_WEB => ⟨.TL_UI_WEB, .SONNET, [.ARCHITECT, .UIUX_GUI], "ui"⟩
  | .DEV_UI_WEB => ⟨.DEV_UI_WEB, .SONNET, [.TL_UI_WEB], "ui"⟩
  | .TL_UI_MOBILE => ⟨.TL_UI_MOBILE, .SONNET, [.ARCHITECT, .UIUX_GUI], "ui"⟩
  | .DEV_UI_MOBILE => ⟨.DEV_UI_MOBILE, .SONNET, [.TL_UI_MOBILE], "ui"⟩
  | .TL_UI_DESKTOP => ⟨.TL_UI_DESKTOP, .SONNET, [.ARCHITECT, .UIUX_GUI], "ui"⟩
  | .DEV_UI_DESKTOP => ⟨.DEV_UI_DESKTOP, .SONNET, [.TL_UI_DESKTOP], "ui"⟩
  | .TL_UI_CLI => ⟨.TL_UI_CLI, .SONNET, [.ARCHITECT, .UIUX_CLI], "ui"⟩
  | .DEV_UI_CLI => ⟨.DEV_UI_CLI, .SONNET, [.TL_UI_CLI], "ui"⟩
  | .TL_CORE_API => ⟨.TL_CORE_API, .SONNET, [.ARCHITECT], "core"⟩
  | .DEV_CORE_API => ⟨.DEV_CORE_API, .SONNET, [.TL_CORE_API], "core"⟩
  | .TL_CORE_SYSTEMS => ⟨.TL_CORE_SYSTEMS, .SONNET, [.ARCHITECT], "core"⟩
  | .DEV_CORE_SYSTEMS => ⟨.DEV_CORE_SYSTEMS, .SONNET, [.TL_CORE_SYSTEMS], "core"⟩
  | .TL_CORE_LIBRARY => ⟨.TL_CORE_LIBRARY, .SONNET, [.ARCHITECT], "core"⟩
  | .DEV_CORE_LIBRARY => ⟨.DEV_CORE_LIBRARY, .SONNET, [.TL_CORE_LIBRARY], "core"⟩
  | .DEV_PLATFORM_IOS => ⟨.DEV_PLATFORM_IOS, .SONNET, [.ARCHITECT], "platform"⟩
  | .DEV_PLATFORM_ANDROID => ⟨.DEV_PLATFORM_ANDROID, .SONNET, [.ARCHITECT], "platform"⟩
  | .DEV_PLATFORM_WINDOWS => ⟨.DEV_PLATFORM_WINDOWS, .SONNET, [.ARCHITECT], "platform"⟩
  | .DEV_PLATFORM_LINUX => ⟨.DEV_PLATFORM_LINUX, .SONNET, [.ARCHITECT], "platform"⟩
  | .DEV_PLATFORM_MACOS => ⟨.DEV_PLATFORM_MACOS, .SONNET, [.ARCHITECT], "platform"⟩
  | .DEV_PLATFORM_EMBEDDED => ⟨.DEV_PLATFORM_EMBEDDED, .SONNET, [.ARCHITECT], "platform"⟩
  | .DEV_INTEGRATION_DATABASE => ⟨.DEV_INTEGRATION_DATABASE, .SONNET, [.ARCHITECT], "integration"⟩
  | .DEV_INTEGRATION_API => ⟨.DEV_INTEGRATION_API, .SONNET, [.ARCHITECT], "integration"⟩
  | .DEV_INTEGRATION_NETWORK => ⟨.DEV_INTEGRATION_NETWORK, .SONNET, [.ARCHITECT], "integration"⟩
  | .DEV_INTEGRATION_HARDWARE => ⟨.DEV_INTEGRATION_HARDWARE, .SONNET, [.ARCHITECT], "integration"⟩
  | .TL_CONTENT => ⟨.TL_CONTENT, .OPUS, [.PM], "content"⟩
  | .DEV_CONTENT => ⟨.DEV_CONTENT, .SONNET, [.TL_CONTENT], "content"⟩
  | .TL_GRAPHICS => ⟨.TL_GRAPHICS, .OPUS, [.PM], "graphics"⟩
  | .DEV_GRAPHICS => ⟨.DEV_GRAPHICS, .SONNET, [.TL_GRAPHICS], "graphics"⟩
  | .UIUX => ⟨.UIUX, .OPUS, [.PM], "universal"⟩
  | .TL_FRONTEND => ⟨.TL_FRONTEND, .SONNET, [.ARCHITECT, .UIUX_GUI], "ui"⟩
  | .DEV_FRONTEND => ⟨.DEV_FRONTEND, .SONNET, [.TL_FRONTEND], "ui"⟩
  | .TL_BACKEND => ⟨.TL_BACKEND, .SONNET, [.ARCHITECT], "core"⟩
  | .DEV_BACKEND => ⟨.DEV_BACKEND, .SONNET, [.TL_BACKEND], "core"⟩

/-- `get_agent_config` from `agents/configs.py`: alias resolution is applied
first, and the map has an entry for every resolved type, so the Python
fallback lookup and the `ValueError` branch are unreachable. -/
def get_agent_config (agent_type : AgentType) : AgentConfig :=
  AGENT_CONFIGS_MAP (resolve_agent_type agent_type)

/-- The prerequisite function the resolver actually consults:
`get_agent_config(a).dependencies`. -/
def configDeps (a : AgentType) : List AgentType :=
  (get_agent_config a).dependencies

/-! ## Dependency resolver (`orchestration/workflows.py`,
`orchestration/parallel_engine.py`)

`WorkflowMapper.topological_sort` does a three-colour DFS (0 = unvisited,
1 = visiting, 2 = visited) over the provided agent list, consulting
`get_agent_config(node).dependencies` and recursing only into dependencies
that are themselves in the input list.  The Python recursion is unbounded;
here it carries a fuel argument, and `topoFuel_sufficient` below shows the
fuel used by `topological_sort` never runs out, so the `topoFuelMsg` branch
is unreachable.  The dependency lookup (`get_agent_config`) is passed in as
the parameter `deps`, instantiated with `configDeps` for the real registry. -/

/-- The `ValueError` message raised by `visit` on a back edge. -/
def topoCycleMsg : String := "Cycle detected in agent dependencies"

/-- Marker for fuel exhaustion; proven unreachable for the fuel used by
`topological_sort`. -/
def topoFuelMsg : String := "fuel exhausted"

mutual

/-- One `visit(node)` call of `WorkflowMapper.topological_sort`: `st` is the
`state` dict (total on the enum; Python only ever indexes members of
`agents`), `res` the shared `result` list. -/
def topoVisit (deps : AgentType → List AgentType) (agents : List AgentType) :
    Nat → (AgentType → Nat) → List AgentType → AgentType →
    Except String ((AgentType → Nat) × List AgentType)
  | 0, _, _, _ => .error topoFuelMsg
  | fuel+1, st, res, node =>
    if st node = 1 then .error topoCycleMsg
    else if st node = 2 then .ok (st, res)
    else
      match topoVisitList deps agents fuel (Function.update st node 1) res
          ((deps node).filter (fun d => decide (d ∈ agents))) with
      | .error e => .error e
      | .ok (st2, res2) => .ok (Function.update st2 node 2, res2 ++ [node])
termination_by fuel _ _ _ => (fuel, 0)

/-- The `for dep in config.dependencies: if dep in agents: visit(dep)` loop
(the membership filter is applied by the caller). -/
def topoVisitList (deps : AgentType → List AgentType) (agents : List AgentType) :
    Nat → (AgentType → Nat) → List AgentType → List AgentType →
    Except String ((AgentType → Nat) × List AgentType)
  | _, st, res, [] => .ok (st, res)
  | fuel, st, res, d :: ds =>
    match topoVisit deps agents fuel st res d with
    | .error e => .error e
    | .ok (st2, res2) => topoVisitList deps agents fuel st2 res2 ds
termination_by fuel _ _ l => (fuel, l.length + 1)

end

/-- The outer `for agent in agents: if state[agent] == 0: visit(agent)` loop. -/
def topoLoop (deps : AgentType → List AgentType) (agents : List AgentType)
    (fuel : Nat) :
    (AgentType → Nat) → List AgentType → List AgentType →
    Except String ((AgentType → Nat) × List AgentType)
  | st, res, [] => .ok (st, res)
  | st, res, a :: rest =>
    if st a = 0 then
      match topoVisit deps agents fuel st res a with
      | .error e => .error e
      | .ok (st2, res2) => topoLoop deps agents fuel st2 res2 rest
    else topoLoop deps agents fuel st res rest

/-- `WorkflowMapper.topological_sort` from `orchestration/workflows.py`. -/
def topological_sort (deps : AgentType → List AgentType)
    (agents : List AgentType) : Except String (List AgentType) :=
  match topoLoop deps agents (agents.length + 1) (fun _ => 0) [] agents with
  | .error e => .error e
  | .ok (_, res) => .ok res

/-- The `RuntimeError` message of `_compute_phases` (the Python message also
interpolates the remaining set; the text is immaterial here). -/
def phasesStuckMsg : String := "Cannot resolve dependencies"

/-- The readiness test of `_compute_phases`:
`all(dep in completed for dep in config.dependencies)`.  Note it consults the
FULL dependency list of the agent, with no restriction to the subset. -/
def phaseReady (deps : AgentType → List AgentType) (completed : List AgentType)
    (a : AgentType) : Bool :=
  (deps a).all (fun d => decide (d ∈ completed))

/-- The `while remaining` loop of `ParallelWorkflowEngine._compute_phases`.
Python iterates over sets; the embedding keeps lists in input order, which
fixes one of the orders the set iteration may produce (the claims are about
phase membership, not intra-phase order). -/
def computePhasesAux (deps : AgentType → List AgentType) :
    List AgentType → List AgentType → Except String (List (List AgentType))
  | completed, remaining =>
    if remaining.isEmpty then .ok []
    else
      if h : (remaining.filter (phaseReady deps completed)).isEmpty then
        .error phasesStuckMsg
      else
        match computePhasesAux deps
            (completed ++ remaining.filter (phaseReady deps completed))
            (remaining.filter (fun a => ! phaseReady deps completed a)) with
        | .error e => .error e
        | .ok phases => .ok (remaining.filter (phaseReady deps completed) :: phases)
termination_by _ remaining => remaining.length
decreasing_by
  have hlen := List.length_eq_length_filter_add (l := remaining)
      (phaseReady deps completed)
  have hpos : 0 < (remaining.filter (phaseReady deps completed)).length := by
    cases hr : remaining.filter (phaseReady deps completed) with
    | nil => rw [hr] at h; simp at h
    | cons x xs => simp
  omega

/-- `ParallelWorkflowEngine._compute_phases` from
`orchestration/parallel_engine.py` (phases returned as lists of agents; the
`phase_number` of the k-th list is k+1). -/
def compute_phases (deps : AgentType → List AgentType)
    (execution_order : List AgentType) : Except String (List (List AgentType)) :=
  computePhasesAux deps [] execution_order

/-! ## Event emitter (`common/events.py`)

A listener is a Python callable that may raise; it is modelled as a function
`α → Except ε Unit`.  `emitList` mirrors the
`for listener in self._listeners[event]: listener(payload)` loop and
additionally records the (zero-based) indices of the listeners that were
actually invoked, so that propagation and skipping are observable. -/

/-- The listener loop of `EventEmitter.emit`: returns the invoked indices in
order, and the outcome (`.error e` models an uncaught listener exception
propagating out of `emit`). -/
def emitList {α ε : Type} (ls : List (α → Except ε Unit)) (payload : α) :
    List Nat × Except ε Unit :=
  match ls with
  | [] => ([], .ok ())
  | l :: rest =>
    match l payload with
    | .error e => ([0], .error e)
    | .ok () =>
      let (is, r) := emitList rest payload
      (0 :: is.map (· + 1), r)

/-- `EventEmitter.emit`: the `_listeners` dict is an association list; a
missing event name means no listener runs. -/
def EventEmitter.emit {α ε : Type} (listeners : List (String × List (α → Except ε Unit)))
    (event : String) (payload : α) : List Nat × Except ε Unit :=
  match listeners.lookup event with
  | none => ([], .ok ())
  | some ls => emitList ls payload

/-! ## Session manager status updates (`orchestration/session_manager.py`) -/

/-- `SessionData` from `common/types.py` (wall-clock `start_time` and the
free-form `checkpoints` dict are not modelled; no claim concerns them). -/
structure SessionData where
  id : String
  workflow_name : String
  status : WorkflowStatus
  idea : Option String := none
  output_dir : Option String := none
  current_stage : Nat := 0
  completed_tasks : List String := []
  total_tokens : Nat := 0
  deriving DecidableEq, Repr

/-- `SessionManager.update_status`: the sessions directory is an association
list from session id to `SessionData`.  The Python method loads the session,
assigns `session.status = status` unconditionally, and saves; a missing id
only logs a warning. -/
def SessionManager.update_status (sessions : List (String × SessionData))
    (session_id : String) (status : WorkflowStatus) :
    List (String × SessionData) :=
  sessions.map (fun p =>
    if p.1 = session_id then (p.1, { p.2 with status := status }) else p)

/-! ## Task file store manifest (`pms/task_file_store.py`)

`complete_task` also writes `output.json` / `artifacts.json` files; those do
not influence the manifest's `completed` membership and are not modelled
here.  Timestamps are omitted (wall-clock time).  The manifest is modelled
structurally; `tasks` is an association list mirroring the JSON object. -/

/-- One entry of the manifest's `tasks` object. -/
structure ManifestTask where
  status : String
  tokens_used : Nat := 0
  artifact_count : Nat := 0
  error : Option String := none
  deriving DecidableEq, Repr

/-- The `.tasks/manifest.json` contents (timestamp fields omitted). -/
structure Manifest where
  session_id : String
  workflow : String
  project_idea : String
  agents : List String
  tasks : List (String × ManifestTask)
  completed : List String
  in_progress : List String
  pending : List String
  deriving DecidableEq, Repr

/-- `TaskFileStore.initialize_session`. -/
def initialize_session (session_id workflow project_idea : String)
    (agents : List AgentType) : Manifest :=
  { session_id := session_id
    workflow := workflow
    project_idea := project_idea
    agents := agents.map (·.value)
    tasks := []
    completed := []
    in_progress := []
    pending := agents.map (·.value) }

/-- Point update of an association list (mirrors `manifest["tasks"][k].update`). -/
def updateAssoc (l : List (String × ManifestTask)) (k : String)
    (f : ManifestTask → ManifestTask) : List (String × ManifestTask) :=
  l.map (fun p => if p.1 = k then (p.1, f p.2) else p)

/-- `TaskFileStore.complete_task`, restricted to its manifest update.  The
Python code removes the agent from `in_progress` (first occurrence), appends
it to `completed` only when absent, then does
`manifest["tasks"][agent_name].update(...)` — which raises `KeyError` when
the agent has no task entry, in which case the manifest is never written
back, so the stored manifest is unchanged (modelled by `.error`). -/
def complete_task (m : Manifest) (agent_type : AgentType)
    (tokens_used artifact_count : Nat) : Except String Manifest :=
  let name := agent_type.value
  let in_progress1 :=
    if name ∈ m.in_progress then m.in_progress.erase name else m.in_progress
  let completed1 :=
    if name ∈ m.completed then m.completed else m.completed ++ [name]
  if (m.tasks.lookup name).isNone then .error "KeyError"
  else
    .ok { m with
          in_progress := in_progress1
          completed := completed1
          tasks := updateAssoc m.tasks name (fun t =>
            { t with status := "completed", tokens_used := tokens_used,
                     artifact_count := artifact_count }) }

/-- The `completed` list of the stored manifest after a `complete_task` call:
on `KeyError` nothing is written, so the stored manifest keeps `m.completed`. -/
def completedAfter (m : Manifest) (agent_type : AgentType)
    (tokens_used artifact_count : Nat) : List String :=
  match complete_task m agent_type tokens_used artifact_count with
  | .ok m2 => m2.completed
  | .error _ => m.completed

/-- `TaskFileStore.get_completed_agents`: parse each name in the manifest's
`completed` list with the `AgentType` constructor, skipping unknown names. -/
def get_completed_agents (m : Manifest) : List AgentType :=
  m.completed.filterMap agentTypeOfValue

/-! ## Parallel run scheduling (`ParallelWorkflowEngine._run_parallel`)

The engine computes `completed = set(task_store.get_completed_agents())`
once, then for each phase filters out completed agents, invokes the rest
concurrently (`asyncio.gather` starts every task of the phase), and aborts
before later phases when any agent of the phase failed.  `success` abstracts
the per-agent outcome of `_execute_agent`.  The function returns the list of
agents whose collaborator subprocess is invoked. -/

def runParallelSchedule (success : AgentType → Bool) :
    List (List AgentType) → List AgentType → List AgentType
  | [], _ => []
  | phase :: rest, completed =>
    let pending := phase.filter (fun a => decide (a ∉ completed))
    if pending.isEmpty then runParallelSchedule success rest completed
    else if pending.all success then
      pending ++ runParallelSchedule success rest completed
    else pending

/-! ## Artifact path validation (`_process_artifacts` and the artifact loop
of `WorkflowEngine.run_loop`)

Paths are modelled as component lists: an absolute path is the list of its
components from the filesystem root.  `Path(s)` keeps `..` components and
drops empty and `.` components; `resolve()` (without symbolic links)
normalizes `..` lexically, never escaping above the filesystem root.  The
project root is assumed already resolved (`output_dir.resolve()`), and the
filesystem is the list of existing files' resolved paths. -/

/-- Split a character list on a separator character (the semantics of
Python `str.split(sep)` for a one-character separator). -/
def splitOnChar (c : Char) (s : List Char) : List (List Char) :=
  s.foldr
    (fun x acc => if x = c then [] :: acc else (x :: acc.headI) :: acc.tail)
    [[]]

/-- `pathlib.Path` constructor on a POSIX path string: absoluteness flag and
components (empty and `.` segments dropped, `..` kept). -/
def splitPath (s : String) : Bool × List String :=
  ((match s.data with
    | c :: _ => c = '/'
    | [] => false : Bool),
   ((splitOnChar '/' s.data).map String.mk).filter
     (fun c => c ≠ "" ∧ c ≠ "."))

/-- Lexical `..` normalization performed by `Path.resolve()` in a
symlink-free filesystem (a leading `..` at the root is dropped, as POSIX
resolves `/..` to `/`). -/
def normComps (comps : List String) : List String :=
  comps.foldl (fun acc c => if c = ".." then acc.dropLast else acc ++ [c]) []

/-- The `fpath` computation shared by both engines: absolute artifact paths
are resolved as-is, relative ones are joined to the project root first. -/
def resolveArtifactPath (root : List String) (p : String) : List String :=
  let (isAbs, comps) := splitPath p
  if isAbs then normComps comps else normComps (root ++ comps)

/-- `Artifact` from `common/types.py`. -/
structure Artifact where
  name : String
  type : String
  path : Option String := none
  content : Option String := none
  action : Option String := none
  deriving DecidableEq, Repr

/-- `ParallelWorkflowEngine._process_artifacts`: register an artifact path
only when the artifact is a file with a truthy path, the resolved path stays
inside the project root, and the file exists on disk.  This function
performs no writes. -/
def process_artifacts (root : List String) (fs : List (List String)) :
    List Artifact → List (List String)
  | [] => []
  | a :: rest =>
    match a.path with
    | some p =>
      if a.type = "file" ∧ p ≠ "" then
        if root.isPrefixOf (resolveArtifactPath root p) then
          if resolveArtifactPath root p ∈ fs then
            resolveArtifactPath root p :: process_artifacts root fs rest
          else process_artifacts root fs rest
        else process_artifacts root fs rest
      else process_artifacts root fs rest
    | none => process_artifacts root fs rest

/-- Truthiness of `artifact.path` (Python: `None` and the empty string are
falsy). -/
def truthyPath (a : Artifact) : Bool :=
  match a.path with
  | some p => p ≠ ""
  | none => false

/-- Truthiness of `artifact.content`. -/
def truthyContent (a : Artifact) : Bool :=
  match a.content with
  | some c => c ≠ ""
  | none => false

/-- The artifact loop of `WorkflowEngine.run_loop` (both the path-based
branch and the legacy inline-content branch, which performs the only write).
Returns `(created_files, written_paths, final filesystem)`; legacy writes
add the file to the filesystem, visible to later artifacts of the same
response.  An inline-content artifact is written only when its `content` is
truthy and its `name`, resolved against the root, stays inside the root. -/
def runLoopArtifacts (root : List String) :
    List (List String) → List Artifact →
    List (List String) × List (List String) × List (List String)
  | fs, [] => ([], [], fs)
  | fs, a :: rest =>
    if a.type = "file" ∧ truthyPath a then
      let fpath := resolveArtifactPath root (a.path.getD "")
      if root.isPrefixOf fpath then
        if fpath ∈ fs then
          let (cf, wr, fs2) := runLoopArtifacts root fs rest
          (fpath :: cf, wr, fs2)
        else runLoopArtifacts root fs rest
      else runLoopArtifacts root fs rest
    else if a.type = "file" ∧ truthyContent a then
      let fpath := resolveArtifactPath root a.name
      if root.isPrefixOf fpath then
        let (cf, wr, fs2) := runLoopArtifacts root (fpath :: fs) rest
        (fpath :: cf, fpath :: wr, fs2)
      else runLoopArtifacts root fs rest
    else runLoopArtifacts root fs rest

/-! ## Response parser (`agents/response_parser.py`)

`ResponseParser.parse` extracts fields with regexes.  `re.search` with a
`literal(.*?)literal` pattern returns the first opening literal that has a
closing literal somewhere after it; because every closing occurrence after a
later opening is also after the first opening, this equals: find the first
opening, then the first closing after it.  The artifact regexes are modelled
by a left-to-right scanner; one-level non-greedy matching is implemented
(backtracking past the first closing-quote candidate is not modelled — the
claims below do not depend on the artifact fields).  Python `\\s` is
modelled by `Char.isWhitespace`, `\\w` by alphanumeric-or-underscore. -/

/-- Python `str.strip()`. -/
def pyStrip (s : String) : String :=
  String.mk (((s.data.dropWhile Char.isWhitespace).reverse.dropWhile
    Char.isWhitespace).reverse)

/-- Python `str.lstrip("- ")`: drop leading dashes and blanks. -/
def pyLstripDashSpace (s : String) : String :=
  String.mk (s.data.dropWhile (fun c => c = '-' ∨ c = ' '))

/-- Split around the first occurrence of `pat`: returns the part before the
match and the part after it. -/
def splitFirst (pat : List Char) : List Char → Option (List Char × List Char)
  | [] => if pat.isEmpty then some ([], []) else none
  | c :: rest =>
    if pat.isPrefixOf (c :: rest) then some ([], (c :: rest).drop pat.length)
    else (splitFirst pat rest).map (fun q => (c :: q.1, q.2))

/-- `re.search(open + "(.*?)" + close, text, re.DOTALL)`: the matched group. -/
def tagBlock (openTag closeTag : String) (s : String) : Option String :=
  match splitFirst openTag.data s.data with
  | none => none
  | some (_, afterOpen) =>
    match splitFirst closeTag.data afterOpen with
    | none => none
    | some (content, _) => some (String.mk content)

/-- The list-item post-processing shared by `next_steps` and `warnings`:
`group.strip().split("\n")`, keep non-blank lines, and for each line
`line.strip().lstrip("- ").strip()`. -/
def parseItems (content : String) : List String :=
  ((pyStrip content).splitOn "\n").filterMap (fun line =>
    if pyStrip line = "" then none
    else some (pyStrip (pyLstripDashSpace (pyStrip line))))

/-- The quote character class `["\x27]` of the artifact regexes. -/
def isQuoteChar (c : Char) : Bool :=
  c = Char.ofNat 34 ∨ c = Char.ofNat 39

/-- Regex `\w`. -/
def isWordChar (c : Char) : Bool :=
  c.isAlphanum ∨ c = '_'

/-- Consume a literal. -/
def expectLit (lit : String) (s : List Char) : Option (List Char) :=
  if lit.data.isPrefixOf s then some (s.drop lit.length) else none

/-- Consume `\s+`. -/
def ws1 : List Char → Option (List Char)
  | [] => none
  | c :: rest =>
    if c.isWhitespace then some (rest.dropWhile Char.isWhitespace) else none

/-- Consume `\s*`. -/
def ws0 (s : List Char) : List Char := s.dropWhile Char.isWhitespace

/-- Consume one quote character. -/
def expectQuote : List Char → Option (List Char)
  | [] => none
  | c :: rest => if isQuoteChar c then some rest else none

/-- Consume `(.*?)["\x27]`: everything up to (and including) the first quote. -/
def takeUntilQuote (s : List Char) : Option (List Char × List Char) :=
  let content := s.takeWhile (fun c => ¬ isQuoteChar c)
  let rest := s.drop content.length
  match rest with
  | [] => none
  | _ :: r => some (content, r)

/-- The optional `(?:action=["\x27](\w+)["\x27])?` group. -/
def matchAction (s : List Char) : Option (String × List Char) := do
  let s1 ← expectLit "action=" s
  let s2 ← expectQuote s1
  let w := s2.takeWhile isWordChar
  if w.isEmpty then none
  else do
    let s3 ← expectQuote (s2.drop w.length)
    return (String.mk w, s3)

/-- Try the path-based artifact pattern at the head of `s`:
`<artifact\s+path=["\x27](.*?)["\x27]\s*(?:action=...)?\s*/?>`. -/
def matchArtifactPathAt (s : List Char) :
    Option (String × Option String × List Char) := do
  let s1 ← expectLit "<artifact" s
  let s2 ← ws1 s1
  let s3 ← expectLit "path=" s2
  let s4 ← expectQuote s3
  let (p, s5) ← takeUntilQuote s4
  let s6 := ws0 s5
  let (act, s7) :=
    match matchAction s6 with
    | some (w, rest) => (some w, rest)
    | none => (none, s6)
  let s8 := ws0 s7
  let s9 := match s8 with
    | c :: r => if c = '/' then r else s8
    | [] => s8
  let s10 ← expectLit ">" s9
  return (String.mk p, act, s10)

/-- Try the legacy artifact pattern at the head of `s`:
`<artifact\s+name=["\x27](.*?)["\x27]\s+type=["\x27](.*?)["\x27]\s*>(.*?)</artifact>`. -/
def matchArtifactLegacyAt (s : List Char) :
    Option (String × String × String × List Char) := do
  let s1 ← expectLit "<artifact" s
  let s2 ← ws1 s1
  let s3 ← expectLit "name=" s2
  let s4 ← expectQuote s3
  let (nm, s5) ← takeUntilQuote s4
  let s6 ← ws1 s5
  let s7 ← expectLit "type=" s6
  let s8 ← expectQuote s7
  let (ty, s9) ← takeUntilQuote s8
  let s10 ← expectLit ">" (ws0 s9)
  let (content, s11) ← splitFirst "</artifact>".data s10
  return (String.mk nm, String.mk ty, String.mk content, s11)

/-- `Path(file_path).name`: the last non-empty component. -/
def pathName (p : String) : String :=
  (((p.splitOn "/").filter (fun c => c ≠ "")).getLast?).getD ""

/-- `finditer` over the path-based artifact pattern (fuel-bounded scan; the
fuel passed by `parse` covers the input length). -/
def scanArtifactsPath : Nat → List Char → List Artifact
  | 0, _ => []
  | _, [] => []
  | fuel + 1, s@(_ :: rest) =>
    match matchArtifactPathAt s with
    | some (p, act, rem) =>
      { name := pathName p, type := "file", path := some p, content := none,
        action := some (act.getD "created") } :: scanArtifactsPath fuel rem
    | none => scanArtifactsPath fuel rest

/-- `finditer` over the legacy artifact pattern. -/
def scanArtifactsLegacy : Nat → List Char → List Artifact
  | 0, _ => []
  | _, [] => []
  | fuel + 1, s@(_ :: rest) =>
    match matchArtifactLegacyAt s with
    | some (nm, ty, content, rem) =>
      { name := nm, type := ty, path := none, content := some (pyStrip content),
        action := none } :: scanArtifactsLegacy fuel rem
    | none => scanArtifactsLegacy fuel rest

/-- `AgentOutput` from `common/types.py` (the free-form `metadata` dict is
not modelled; no claim concerns it). -/
structure AgentOutput where
  success : Bool
  summary : String
  artifacts : List Artifact
  next_steps : List String
  warnings : List String
  deriving Repr

/-- `ResponseParser.parse` from `agents/response_parser.py`.  The constructed
output hard-codes `success=True` (source line: "Assume success if we got a
response."). -/
def ResponseParser.parse (text : String) : AgentOutput :=
  let stripped := pyStrip text
  let fallback := String.mk (stripped.data.take 100) ++ "..."
  let summary0 :=
    match tagBlock "<summary>" "</summary>" text with
    | some g => pyStrip g
    | none => fallback
  let summary := if summary0 = fallback then stripped else summary0
  let pathArts := scanArtifactsPath (text.length + 1) text.data
  let artifacts :=
    if pathArts.isEmpty then scanArtifactsLegacy (text.length + 1) text.data
    else pathArts
  let next_steps :=
    match tagBlock "<next_steps>" "</next_steps>" text with
    | some g => parseItems g
    | none => []
  let warnings :=
    match tagBlock "<warnings>" "</warnings>" text with
    | some g => parseItems g
    | none => []
  { success := true, summary := summary, artifacts := artifacts,
    next_steps := next_steps, warnings := warnings }

/-- `ParallelWorkflowEngine._call_claude_async`, at the boundary visible to
the engine: the subprocess result is `(returncode, stdout, stderr)`; a
non-zero exit raises, otherwise the stdout is parsed. -/
def call_claude_async (returncode : Int) (stdout stderr : String) :
    Except String AgentOutput :=
  if returncode ≠ 0 then .error ("Claude CLI failed: " ++ stderr)
  else .ok (ResponseParser.parse stdout)

/-- The failure determination of `_execute_agent`: a raise from
`_call_claude_async` or `if not response.success: raise`. -/
def executeAgentOutcome (returncode : Int) (stdout stderr : String) :
    Except String AgentOutput :=
  match call_claude_async returncode stdout stderr with
  | .error e => .error e
  | .ok r => if r.success then .ok r else .error r.summary

/-! ## Specification predicates for the dependency resolver -/

/-- `count0 agents st`: how many entries of the `state` dict are unvisited. -/
def count0 (agents : List AgentType) (st : AgentType → Nat) : Nat :=
  (agents.filter (fun a => st a = 0)).length

/-- A cycle among the members of `agents`: a nonempty sublist every member of
which has a prerequisite inside it.  Over a finite relation this is exactly
the existence of a dependency cycle inside the subset. -/
def CycleWitness (deps : AgentType → List AgentType) (agents : List AgentType)
    (C : List AgentType) : Prop :=
  C ≠ [] ∧ (∀ c ∈ C, c ∈ agents) ∧ ∀ c ∈ C, ∃ d ∈ deps c, d ∈ C

/-- The prerequisite relation restricted to the subset is acyclic. -/
def SubsetAcyclic (deps : AgentType → List AgentType)
    (agents : List AgentType) : Prop :=
  ¬ ∃ C, CycleWitness deps agents C

/-- `res` lists every role strictly after each of its prerequisites that is
in `agents`. -/
def OrderRespects (deps : AgentType → List AgentType)
    (agents res : List AgentType) : Prop :=
  ∀ (i : Nat) (hi : i < res.length) d, d ∈ deps (res.get ⟨i, hi⟩) →
    d ∈ agents → d ∈ res.take i

/-- The invariant of the DFS state and result list: colours are at most 2,
colour 2 marks exactly the emitted nodes, the emitted list is duplicate-free
and dependency-ordered, and only subset members are emitted. -/
def topoInv (deps : AgentType → List AgentType) (agents : List AgentType)
    (st : AgentType → Nat) (res : List AgentType) : Prop :=
  (∀ x, st x ≤ 2) ∧ (∀ x, st x = 2 ↔ x ∈ res) ∧ res.Nodup ∧
    OrderRespects deps agents res ∧ ∀ x ∈ res, x ∈ agents

/-- The DFS ancestor stack: consecutive entries are linked by the restricted
prerequisite relation (each entry is a dependency of the next, and both are
in the subset). -/
def stackChain (deps : AgentType → List AgentType) (agents : List AgentType)
    (S : List AgentType) : Prop :=
  List.Chain' (fun a b => a ∈ deps b ∧ a ∈ agents ∧ b ∈ agents) S

/-- The contract of one `visit` call at a given fuel: from a valid state
with ancestor stack `S` (colour-1 set exactly `S`, chained by the restricted
prerequisite relation), the call either succeeds preserving the invariant
(marking the node emitted, growing marks monotonically, keeping the colour-1
set, and extending the result), or fails with the cycle error in a subset
that really contains a cycle, or runs out of fuel no smaller than the count
of unvisited entries. -/
def VisitSpec (deps : AgentType → List AgentType) (agents : List AgentType)
    (fuel : Nat) : Prop :=
  ∀ (st : AgentType → Nat) (res : List AgentType) (node : AgentType)
    (S : List AgentType),
    topoInv deps agents st res → node ∈ agents →
    (∀ x, st x = 1 ↔ x ∈ S) → stackChain deps agents (node :: S) →
    (∃ st2 res2, topoVisit deps agents fuel st res node = .ok (st2, res2) ∧
      topoInv deps agents st2 res2 ∧ st2 node = 2 ∧ (∀ x, st x ≤ st2 x) ∧
      (∀ x, st x = 1 ↔ st2 x = 1) ∧ ∃ t, res2 = res ++ t) ∨
    (topoVisit deps agents fuel st res node = .error topoCycleMsg ∧
      ∃ C, CycleWitness deps agents C) ∨
    (topoVisit deps agents fuel st res node = .error topoFuelMsg ∧
      fuel ≤ count0 agents st)

/-- The corresponding contract of the dependency loop `visitList`. -/
def ListSpec (deps : AgentType → List AgentType) (agents : List AgentType)
    (fuel : Nat) : Prop :=
  ∀ (st : AgentType → Nat) (res : List AgentType) (L : List AgentType)
    (parent : AgentType) (S : List AgentType),
    topoInv deps agents st res → parent ∈ agents →
    (∀ d ∈ L, d ∈ deps parent ∧ d ∈ agents) →
    (∀ x, st x = 1 ↔ x ∈ parent :: S) →
    stackChain deps agents (parent :: S) →
    (∃ st2 res2, topoVisitList deps agents fuel st res L = .ok (st2, res2) ∧
      topoInv deps agents st2 res2 ∧ (∀ d ∈ L, st2 d = 2) ∧
      (∀ x, st x ≤ st2 x) ∧ (∀ x, st x = 1 ↔ st2 x = 1) ∧
      ∃ t, res2 = res ++ t) ∨
    (topoVisitList deps agents fuel st res L = .error topoCycleMsg ∧
      ∃ C, CycleWitness deps agents C) ∨
    (topoVisitList deps agents fuel st res L = .error topoFuelMsg ∧
      fuel ≤ count0 agents st)

/-- One-based phase number of `a` in a phase list (0 when absent). -/
def phaseIndexOf (phases : List (List AgentType)) (a : AgentType) : Nat :=
  match phases with
  | [] => 0
  | ph :: rest =>
    if a ∈ ph then 1
    else if phaseIndexOf rest a = 0 then 0 else phaseIndexOf rest a + 1

/-- Every prerequisite of a member of `agents` is itself in `agents`. -/
def DepClosed (deps : AgentType → List AgentType)
    (agents : List AgentType) : Prop :=
  ∀ a ∈ agents, ∀ d ∈ deps a, d ∈ agents

/-! ## Context serializer (`pms/context_serializer.py`)

`ContextSerializer.serialize` builds a list of text lines and joins them
with a newline.  Strings are modelled at character level (`List Char`).
The apostrophe character used by the attribute quoting is `aposC`. -/

/-- The apostrophe character (codepoint 39). -/
def aposC : Char := Char.ofNat 39

/-- The double-quote character (codepoint 34). -/
def quotC : Char := Char.ofNat 34

/-- The fields of `Task` (`common/types.py`) that the serializer reads. -/
structure PyTask where
  id : String
  description : String
  agent_type : AgentType
  context_files : List String
  output_summary : Option String := none
  output_next_steps : List String := []
  output_warnings : List String := []
  deriving DecidableEq, Repr

/-- Python `str.replace(old, new)` for a single-character `old`. -/
def replaceChar (c : Char) (rep : List Char) : List Char → List Char
  | [] => []
  | x :: xs => (if x = c then rep else [x]) ++ replaceChar c rep xs

/-- `_escape_xml` from `pms/context_serializer.py`: the five sequential
`str.replace` calls, `&` first. -/
def escape_xml (s : List Char) : List Char :=
  replaceChar aposC "&apos;".data
    (replaceChar quotC "&quot;".data
      (replaceChar '>' "&gt;".data
        (replaceChar '<' "&lt;".data
          (replaceChar '&' "&amp;".data s))))

/-- Single-character escaping; `escape_xml` is proven equal to
`fun s => s.flatMap escChar`. -/
def escChar (c : Char) : List Char :=
  if c = '&' then "&amp;".data
  else if c = '<' then "&lt;".data
  else if c = '>' then "&gt;".data
  else if c = quotC then "&quot;".data
  else if c = aposC then "&apos;".data
  else [c]

/-- Standard XML entity decoding, inverse of `escape_xml` on its image. -/
def unescape (s : List Char) : List Char :=
  match s with
  | [] => []
  | c :: rest =>
    if c = '&' then
      if "amp;".data.isPrefixOf rest then '&' :: unescape (rest.drop 4)
      else if "lt;".data.isPrefixOf rest then '<' :: unescape (rest.drop 3)
      else if "gt;".data.isPrefixOf rest then '>' :: unescape (rest.drop 3)
      else if "quot;".data.isPrefixOf rest then quotC :: unescape (rest.drop 5)
      else if "apos;".data.isPrefixOf rest then aposC :: unescape (rest.drop 5)
      else c :: unescape rest
    else c :: unescape rest
termination_by s.length
decreasing_by all_goals (simp [List.length_drop]; try omega)

/-- The optional `<summary>` line of a `<dependency>` block. -/
def summaryLinesOf (os : Option String) : List (List Char) :=
  match os with
  | some s =>
    if s ≠ "" then
      ["      <summary>".data ++ escape_xml s.data ++ "</summary>".data]
    else []
  | none => []

/-- The optional `<artifacts>` block of a `<dependency>` block. -/
def artifactLinesOf (files : List String) : List (List Char) :=
  if files ≠ [] then
    "      <artifacts>".data ::
      (files.map (fun f =>
        "        <artifact path=".data ++ [aposC] ++ f.data ++ [aposC] ++
          "/>".data)) ++ ["      </artifacts>".data]
  else []

/-- The optional `<next_steps>` block of a `<dependency>` block. -/
def stepLinesOf (steps : List String) : List (List Char) :=
  if steps ≠ [] then
    "      <next_steps>".data ::
      (steps.map (fun st =>
        "        <step>".data ++ escape_xml st.data ++ "</step>".data)) ++
      ["      </next_steps>".data]
  else []

/-- The optional `<warnings>` block of a `<dependency>` block. -/
def warnLinesOf (warns : List String) : List (List Char) :=
  if warns ≠ [] then
    "      <warnings>".data ::
      (warns.map (fun w =>
        "        <warning>".data ++ escape_xml w.data ++ "</warning>".data)) ++
      ["      </warnings>".data]
  else []

/-- The lines of one `<dependency>` block. -/
def depLines (p : String × PyTask) : List (List Char) :=
  ("    <dependency id=".data ++ [aposC] ++ p.1.data ++ [aposC] ++
     " agent=".data ++ [aposC] ++ (p.2.agent_type.value).data ++ [aposC] ++
     ">".data) ::
  (summaryLinesOf p.2.output_summary ++
   artifactLinesOf p.2.context_files ++
   stepLinesOf p.2.output_next_steps ++
   warnLinesOf p.2.output_warnings ++
   ["    </dependency>".data])

/-- The optional `<project_idea>` block. -/
def ideaLinesOf (oi : Option String) : List (List Char) :=
  match oi with
  | some idea =>
    if idea ≠ "" then
      ["  <project_idea>".data, "    ".data ++ escape_xml idea.data,
       "  </project_idea>".data]
    else []
  | none => []

/-- The optional `<dependencies>` block. -/
def depBlockLinesOf (dependency_tasks : List (String × PyTask)) :
    List (List Char) :=
  if dependency_tasks ≠ [] then
    "  <dependencies>".data :: dependency_tasks.flatMap depLines ++
      ["  </dependencies>".data]
  else []

/-- The optional `<files>` block. -/
def fileBlockLinesOf (files : List String) : List (List Char) :=
  if files ≠ [] then
    "  <files>".data ::
      (files.map (fun f =>
        "    <file path=".data ++ [aposC] ++ f.data ++ [aposC] ++ "/>".data)) ++
      ["  </files>".data]
  else []

/-- All lines built by `ContextSerializer.serialize` (in order). -/
def xmlLines (task : PyTask) (dependency_tasks : List (String × PyTask))
    (project_idea : Option String) : List (List Char) :=
  "<task_context>".data ::
  (ideaLinesOf project_idea ++
   ["  <task_id>".data ++ task.id.data ++ "</task_id>".data,
    "  <agent_role>".data ++ (task.agent_type.value).data ++ "</agent_role>".data,
    "  <description>".data ++ task.description.data ++ "</description>".data] ++
   depBlockLinesOf dependency_tasks ++
   fileBlockLinesOf task.context_files ++
   ["</task_context>".data])

/-- Python `"\n".join`. -/
def joinNL : List (List Char) → List Char
  | [] => []
  | [l] => l
  | l :: rest => l ++ '\n' :: joinNL rest

/-- `ContextSerializer.serialize` from `pms/context_serializer.py`. -/
def ContextSerializer.serialize (task : PyTask)
    (dependency_tasks : List (String × PyTask))
    (project_idea : Option String) : String :=
  String.mk (joinNL (xmlLines task dependency_tasks project_idea))

/-! ## Structural parser for the serialized context payload

A recursive-descent parser for the exact grammar `serialize` emits.  It is
the "structural parsing" side of the round-trip property: it recovers the
task id, the agent role, and each dependency's summary / artifact paths /
next-steps / warnings from the payload text alone. -/

/-- What the structural parse recovers for one `<dependency>` element. -/
structure ParsedDep where
  id : String
  agent : String
  summary : Option String
  artifacts : List String
  next_steps : List String
  warnings : List String
  deriving DecidableEq, Repr

/-- What the structural parse recovers from a payload. -/
structure ParsedContext where
  task_id : String
  agent_role : String
  dependencies : List ParsedDep
  deriving DecidableEq, Repr

/-- Consume one expected character. -/
def expectChar (c : Char) : List Char → Option (List Char)
  | [] => none
  | x :: r => if x = c then some r else none

/-- Take everything up to the first occurrence of `c` and consume `c`. -/
def takeUntilChar (c : Char) (s : List Char) : Option (List Char × List Char) :=
  let content := s.takeWhile (fun x => x != c)
  match s.drop content.length with
  | [] => none
  | _ :: r => some (content, r)

/-- Parse one `{openLit}'path'/>` line (apostrophe-quoted attribute). -/
def parsePathLine (openLit : String) (s : List Char) :
    Option (String × List Char) := do
  let s1 ← expectLit openLit s
  let s2 ← expectChar aposC s1
  let (p, s3) ← takeUntilChar aposC s2
  let s4 ← expectLit "/>\n" s3
  return (String.mk p, s4)

/-- Parse path lines until `endLit`.  The loop re-checks that the line
parser consumed input, which makes termination structural; on the grammar
`serialize` emits the check always passes. -/
def parsePathLoop (openLit endLit : String) (s : List Char) :
    Option (List String × List Char) :=
  if endLit.data.isPrefixOf s then some ([], s.drop endLit.length)
  else
    match parsePathLine openLit s with
    | none => none
    | some (p, s2) =>
      if h : s2.length < s.length then
        match parsePathLoop openLit endLit s2 with
        | none => none
        | some (ps, s3) => some (p :: ps, s3)
      else none
termination_by s.length

/-- Parse one `{openLit}escaped{closeLit}` element, undoing the escaping. -/
def parseTextLine (openLit closeLit : String) (s : List Char) :
    Option (String × List Char) := do
  let s1 ← expectLit openLit s
  let (content, s2) ← splitFirst closeLit.data s1
  return (String.mk (unescape content), s2)

/-- Parse escaped text elements until `endLit`. -/
def parseTextLoop (openLit closeLit endLit : String) (s : List Char) :
    Option (List String × List Char) :=
  if endLit.data.isPrefixOf s then some ([], s.drop endLit.length)
  else
    match parseTextLine openLit closeLit s with
    | none => none
    | some (x, s2) =>
      if h : s2.length < s.length then
        match parseTextLoop openLit closeLit endLit s2 with
        | none => none
        | some (xs, s3) => some (x :: xs, s3)
      else none
termination_by s.length

/-- Parse the optional `<summary>` element. -/
def parseOptSummary (s : List Char) : Option String × List Char :=
  match parseTextLine "      <summary>" "</summary>\n" s with
  | some (x, r) => (some x, r)
  | none => (none, s)

/-- Parse the optional `<artifacts>` block. -/
def parseOptArtifacts (s : List Char) : Option (List String × List Char) :=
  match expectLit "      <artifacts>\n" s with
  | some r => parsePathLoop "        <artifact path=" "      </artifacts>\n" r
  | none => some ([], s)

/-- Parse the optional `<next_steps>` block. -/
def parseOptSteps (s : List Char) : Option (List String × List Char) :=
  match expectLit "      <next_steps>\n" s with
  | some r => parseTextLoop "        <step>" "</step>\n" "      </next_steps>\n" r
  | none => some ([], s)

/-- Parse the optional `<warnings>` block. -/
def parseOptWarnings (s : List Char) : Option (List String × List Char) :=
  match expectLit "      <warnings>\n" s with
  | some r => parseTextLoop "        <warning>" "</warning>\n" "      </warnings>\n" r
  | none => some ([], s)

/-- Parse one `<dependency>` block. -/
def parseDependency (s : List Char) : Option (ParsedDep × List Char) := do
  let s1 ← expectLit "    <dependency id=" s
  let s2 ← expectChar aposC s1
  let (did, s3) ← takeUntilChar aposC s2
  let s4 ← expectLit " agent=" s3
  let s5 ← expectChar aposC s4
  let (ag, s6) ← takeUntilChar aposC s5
  let s7 ← expectLit ">\n" s6
  let (summ, s8) := parseOptSummary s7
  let (arts, s9) ← parseOptArtifacts s8
  let (steps, s10) ← parseOptSteps s9
  let (warns, s11) ← parseOptWarnings s10
  let s12 ← expectLit "    </dependency>\n" s11
  return ({ id := String.mk did, agent := String.mk ag, summary := summ,
            artifacts := arts, next_steps := steps, warnings := warns }, s12)

/-- Parse `<dependency>` blocks until `  </dependencies>`. -/
def parseDepLoop (s : List Char) : Option (List ParsedDep × List Char) :=
  if "  </dependencies>\n".data.isPrefixOf s then
    some ([], s.drop "  </dependencies>\n".length)
  else
    match parseDependency s with
    | none => none
    | some (d, s2) =>
      if h : s2.length < s.length then
        match parseDepLoop s2 with
        | none => none
        | some (ds, s3) => some (d :: ds, s3)
      else none
termination_by s.length

/-- Parse the optional `<project_idea>` block. -/
def parseOptIdea (s : List Char) : Option (List Char) :=
  match expectLit "  <project_idea>\n    " s with
  | some r => (splitFirst "</project_idea>\n".data r).map (fun q => q.2)
  | none => some s

/-- Parse the optional `<dependencies>` block. -/
def parseOptDeps (s : List Char) : Option (List ParsedDep × List Char) :=
  match expectLit "  <dependencies>\n" s with
  | some r => parseDepLoop r
  | none => some ([], s)

/-- Parse the optional `<files>` block. -/
def parseOptFiles (s : List Char) : Option (List String × List Char) :=
  match expectLit "  <files>\n" s with
  | some r => parsePathLoop "    <file path=" "  </files>\n" r
  | none => some ([], s)

/-- Structural parse of a serialized task context payload. -/
def parseTaskContext (s0 : List Char) : Option ParsedContext := do
  let s1 ← expectLit "<task_context>\n" s0
  let s2 ← parseOptIdea s1
  let s3 ← expectLit "  <task_id>" s2
  let (tid, s4) ← splitFirst "</task_id>\n".data s3
  let s5 ← expectLit "  <agent_role>" s4
  let (role, s6) ← splitFirst "</agent_role>\n".data s5
  let s7 ← expectLit "  <description>" s6
  let (_desc, s8) ← splitFirst "</description>\n".data s7
  let (deps, s9) ← parseOptDeps s8
  let (_files, s10) ← parseOptFiles s9
  let s11 ← expectLit "</task_context>" s10
  if s11.isEmpty then
    some { task_id := String.mk tid, agent_role := String.mk role,
           dependencies := deps }
  else none

/-- Strings free of the five XML-reserved characters; the serializer embeds
the task id, description, dependency keys and artifact paths verbatim, so
the round-trip theorem assumes this of those fields (and only of those). -/
def XmlSafe (s : String) : Prop :=
  ∀ c ∈ s.data, c ≠ '<' ∧ c ≠ '>' ∧ c ≠ '&' ∧ c ≠ quotC ∧ c ≠ aposC

/-- The expected parse of one dependency entry, given the source task. -/
def expectedDep (p : String × PyTask) : ParsedDep :=
  { id := p.1
    agent := p.2.agent_type.value
    summary := match p.2.output_summary with
      | some s => if s = "" then none else some s
      | none => none
    artifacts := p.2.context_files
    next_steps := p.2.output_next_steps
    warnings := p.2.output_warnings }

/-- Flatten emitted lines, each followed by a newline (the shape of every
line of the payload except the last). -/
def nlFlat (l : List (List Char)) : List Char :=
  l.flatMap (fun x => x ++ ['\n'])

/-! # Theorems -/

/-! ## C10: the response parser never signals failure -/

/-- C10.  For every input string, `ResponseParser.parse` returns an output
whose `success` flag is `True` — it never signals failure regardless of the
response content — so a role invocation can be marked failed only by a
non-zero subprocess exit (or a raised exception), never by the parsed
content of a response: `_execute_agent`'s failure outcome is equivalent to a
non-zero return code. -/
theorem response_parser_always_success :
    (∀ text : String, (ResponseParser.parse text).success = true) ∧
    (∀ (rc : Int) (out err : String),
      (∃ e, executeAgentOutcome rc out err = .error e) ↔ rc ≠ 0) := by
  constructor
  · intro text
    rfl
  · intro rc out err
    constructor
    · rintro ⟨e, he⟩ h0
      simp [executeAgentOutcome, call_claude_async, h0, ResponseParser.parse] at he
    · intro h0
      refine ⟨"Claude CLI failed: " ++ err, ?_⟩
      simp [executeAgentOutcome, call_claude_async, h0]

/-! ## C9: listener exceptions during `emit` -/

/-- C9 counterexample.  With two listeners on an event, the first raising,
`emit` propagates the exception (`.error`) and never invokes the second
listener (only index 0 is invoked) — contradicting the claim that a
listener exception does not propagate out of `emit` and does not prevent
the remaining listeners from running. -/
theorem emit_listener_exception_counterexample :
    EventEmitter.emit
      [("agent_failed", [fun _ : Nat => (.error "boom" : Except String Unit),
                         fun _ => .ok ()])] "agent_failed" 7
      = ([0], .error "boom") := rfl

/-- C9 amended.  `EventEmitter.emit` invokes listeners in registration order
only up to the first listener that raises: listeners before it run, its
exception propagates out of `emit` uncaught, and the listeners after it are
never invoked (exactly indices `0..pre.length` run). -/
theorem emit_propagates_first_listener_error {α : Type} (event : String)
    (pre post : List (α → Except String Unit)) (bad : α → Except String Unit)
    (payload : α) (e : String)
    (hpre : ∀ l ∈ pre, l payload = .ok ())
    (hbad : bad payload = .error e) :
    EventEmitter.emit [(event, pre ++ bad :: post)] event payload
      = (List.range (pre.length + 1), .error e) := by
  have hlist : ∀ pre2 : List (α → Except String Unit),
      (∀ l ∈ pre2, l payload = .ok ()) →
      emitList (pre2 ++ bad :: post) payload
        = (List.range (pre2.length + 1), .error e) := by
    intro pre2 h2
    induction pre2 with
    | nil =>
      simp [emitList, hbad, List.range_succ_eq_map]
    | cons l rest ih =>
      have hl : l payload = .ok () := h2 l (by simp)
      have hrest := ih (fun x hx => h2 x (by simp [hx]))
      simp [emitList, hl, hrest, List.range_succ_eq_map, Nat.succ_eq_add_one]
  have hlookup : (([(event, pre ++ bad :: post)] :
      List (String × List (α → Except String Unit))).lookup event)
      = some (pre ++ bad :: post) := by
    simp [List.lookup]
  simp only [EventEmitter.emit, hlookup]
  exact hlist pre hpre

/-- Witness for the amended C9 theorem: three listeners, the middle one
raising; exactly indices 0 and 1 are invoked and the error propagates. -/
theorem emit_propagates_first_listener_error_witness :
    EventEmitter.emit
      [("evt", [fun _ : Nat => (.ok () : Except String Unit),
                fun _ => .error "boom", fun _ => .ok ()])] "evt" 0
      = ([0, 1], .error "boom") := by
  have h := emit_propagates_first_listener_error (α := Nat) "evt"
    [fun _ => .ok ()] [fun _ => .ok ()] (fun _ => .error "boom") 0 "boom"
    (by intro l hl; simp at hl; subst hl; rfl) rfl
  exact h.trans (by rfl)

/-! ## C8: session status transitions -/

/-- C8 counterexample.  `SessionManager.update_status` applied to a session
already in the terminal state `COMPLETED` moves it back to `RUNNING`: the
store enforces no monotonic transition order and no terminal-state guard. -/
theorem update_status_exits_terminal_counterexample :
    (SessionManager.update_status
        [("s1", { id := "s1", workflow_name := "w", status := .COMPLETED })]
        "s1" .RUNNING).lookup "s1"
      = some { id := "s1", workflow_name := "w", status := .RUNNING } := by
  decide

/-- C8 amended.  `SessionManager.update_status` sets the status of an
existing session to exactly the requested value, unconditionally: no
transition is checked, and in particular terminal states (`COMPLETED`,
`FAILED`, `CANCELLED`) can be left again (`cancel_workflow` likewise calls
it unconditionally). -/
theorem update_status_unconditional (sessions : List (String × SessionData))
    (sid : String) (status : WorkflowStatus) (s : SessionData)
    (h : sessions.lookup sid = some s) :
    (SessionManager.update_status sessions sid status).lookup sid
      = some { s with status := status } := by
  induction sessions with
  | nil => simp [List.lookup] at h
  | cons p rest ih =>
    obtain ⟨k, v⟩ := p
    by_cases hk : sid = k
    · subst hk
      have hv : v = s := by simpa [List.lookup] using h
      subst hv
      simp only [SessionManager.update_status, List.map_cons]
      simp only [ite_true, if_true]
      simp [List.lookup]
    · have hb : (sid == k) = false := by simpa using hk
      have h2 : List.lookup sid rest = some s := by
        simpa [List.lookup, hb] using h
      have hres := ih h2
      have hne2 : ¬ ((k, v).1 = sid) := fun hh => hk hh.symm
      simp only [SessionManager.update_status, List.map_cons, if_neg hne2] at hres ⊢
      simp only [List.lookup, hb]
      exact hres

/-- Witness for the amended C8 theorem: a `FAILED` session is moved to
`RUNNING`. -/
theorem update_status_unconditional_witness :
    (SessionManager.update_status
        [("a", { id := "a", workflow_name := "w", status := .FAILED })]
        "a" .RUNNING).lookup "a"
      = some { id := "a", workflow_name := "w", status := .RUNNING } :=
  update_status_unconditional
    [("a", { id := "a", workflow_name := "w", status := .FAILED })]
    "a" .RUNNING { id := "a", workflow_name := "w", status := .FAILED }
    (by decide)

/-! ## C7: idempotence of `complete_task` on the completed list -/

/-- C7.  Calling the store's `complete_task` for a role already recorded in
the manifest's `completed` list leaves that list entirely unchanged (the
append is guarded by `if agent_name not in manifest["completed"]`, and on a
`KeyError` nothing is written): the role's membership is unchanged and no
duplicate entry is added. -/
theorem complete_task_idempotent_on_completed (m : Manifest)
    (agent : AgentType) (tokens_used artifact_count : Nat)
    (h : agent.value ∈ m.completed) :
    completedAfter m agent tokens_used artifact_count = m.completed := by
  unfold completedAfter complete_task
  by_cases hk : (m.tasks.lookup agent.value).isNone
  · simp [hk]
  · simp [hk, h]

/-- Witness for C7: a manifest where `PM` is completed; re-completing `PM`
leaves the completed list `["PM"]`. -/
theorem complete_task_idempotent_on_completed_witness :
    completedAfter
      { session_id := "s", workflow := "w", project_idea := "i",
        agents := ["PM"], tasks := [("PM", { status := "completed" })],
        completed := ["PM"], in_progress := [], pending := [] }
      AgentType.PM 5 1 = ["PM"] :=
  complete_task_idempotent_on_completed _ AgentType.PM 5 1 (by decide)

/-! ## C5: resumability — completed roles are skipped -/

/-- Anything the parallel scheduler invokes was not in the completed set. -/
theorem mem_schedule_not_completed (success : AgentType → Bool) :
    ∀ (phases : List (List AgentType)) (completed : List AgentType)
      (a : AgentType), a ∈ runParallelSchedule success phases completed →
      a ∉ completed := by
  intro phases
  induction phases with
  | nil => intro completed a ha; simp [runParallelSchedule] at ha
  | cons ph rest ih =>
    intro completed a ha
    simp only [runParallelSchedule] at ha
    by_cases h1 : (ph.filter (fun a => decide (a ∉ completed))).isEmpty
    · rw [if_pos h1] at ha
      exact ih completed a ha
    · rw [if_neg h1] at ha
      by_cases h2 : (ph.filter (fun a => decide (a ∉ completed))).all success
      · rw [if_pos h2] at ha
        rcases List.mem_append.mp ha with hmem | hmem
        · exact of_decide_eq_true (List.mem_filter.mp hmem).2
        · exact ih completed a hmem
      · rw [if_neg h2] at ha
        exact of_decide_eq_true (List.mem_filter.mp ha).2

/-- `AgentType(name)` is a left inverse of `.value`. -/
theorem agentTypeOfValue_value (r : AgentType) :
    agentTypeOfValue r.value = some r := by
  cases r <;> rfl

/-- C5.  On a re-run, the parallel engine reads the completed set from the
task store manifest (`get_completed_agents`) and (a) never invokes the
collaborator for a role the manifest records as completed, and (b) when no
invocation fails, invokes exactly the roles of the phase list that are not
recorded completed, in phase order — so the store's completed record alone
determines which roles are skipped. -/
theorem rerun_skips_completed (phases : List (List AgentType)) (m : Manifest)
    (success : AgentType → Bool) :
    (∀ r : AgentType, r.value ∈ m.completed →
      r ∉ runParallelSchedule success phases (get_completed_agents m)) ∧
    ((∀ a, success a = true) →
      runParallelSchedule success phases (get_completed_agents m)
        = phases.flatten.filter
            (fun a => decide (a ∉ get_completed_agents m))) := by
  constructor
  · intro r hr hmem
    have hin : r ∈ get_completed_agents m := by
      unfold get_completed_agents
      exact List.mem_filterMap.mpr ⟨r.value, hr, agentTypeOfValue_value r⟩
    exact mem_schedule_not_completed success phases (get_completed_agents m)
      r hmem hin
  · intro hsucc
    generalize get_completed_agents m = completed
    induction phases with
    | nil => rfl
    | cons ph rest ih =>
      simp only [runParallelSchedule, List.flatten_cons, List.filter_append]
      by_cases h1 : (ph.filter (fun a => decide (a ∉ completed))).isEmpty
      · rw [if_pos h1, List.isEmpty_iff.mp h1, List.nil_append]
        exact ih
      · rw [if_neg h1, if_pos (List.all_eq_true.mpr (fun x _ => hsucc x)), ih]

/-- Witness for C5: phases `[[PM], [ARCHITECT]]` with `PM` recorded
completed in the manifest — `PM` is not invoked and the schedule is exactly
`[ARCHITECT]`. -/
theorem rerun_skips_completed_witness :
    (AgentType.PM ∉ runParallelSchedule (fun _ => true)
        [[AgentType.PM], [AgentType.ARCHITECT]]
        (get_completed_agents
          { session_id := "s", workflow := "w", project_idea := "i",
            agents := ["PM", "ARCHITECT"],
            tasks := [("PM", { status := "completed" })],
            completed := ["PM"], in_progress := [],
            pending := ["ARCHITECT"] })) ∧
    runParallelSchedule (fun _ => true)
        [[AgentType.PM], [AgentType.ARCHITECT]]
        (get_completed_agents
          { session_id := "s", workflow := "w", project_idea := "i",
            agents := ["PM", "ARCHITECT"],
            tasks := [("PM", { status := "completed" })],
            completed := ["PM"], in_progress := [],
            pending := ["ARCHITECT"] })
      = [AgentType.ARCHITECT] := by
  constructor
  · exact (rerun_skips_completed [[AgentType.PM], [AgentType.ARCHITECT]] _
      (fun _ => true)).1 AgentType.PM (by decide)
  · rw [(rerun_skips_completed [[AgentType.PM], [AgentType.ARCHITECT]] _
      (fun _ => true)).2 (fun _ => rfl)]
    decide

/-! ## C1: artifact path validation -/

/-- C1.  (1) `_process_artifacts` registers a path exactly when it comes
from a file artifact with a truthy path whose resolution against the
project root stays inside the root and exists on disk; (2) the legacy write
branch of `run_loop` never writes outside the root; (3) every file it
registers is inside the root.  In particular `"../../etc/passwd"` resolves
outside the root and is neither registered nor written, while
`"subdir/file.txt"` with an existing file is registered at the correctly
joined absolute path. -/
theorem artifact_path_validation (root : List String) :
    (∀ (fs : List (List String)) (arts : List Artifact) (q : List String),
      q ∈ process_artifacts root fs arts ↔
        ∃ a ∈ arts, a.type = "file" ∧ ∃ p, a.path = some p ∧ p ≠ "" ∧
          resolveArtifactPath root p = q ∧ root.isPrefixOf q = true ∧
          q ∈ fs) ∧
    (∀ (fs0 : List (List String)) (arts : List Artifact) (w : List String),
      w ∈ (runLoopArtifacts root fs0 arts).2.1 →
      root.isPrefixOf w = true) ∧
    (∀ (fs0 : List (List String)) (arts : List Artifact) (q : List String),
      q ∈ (runLoopArtifacts root fs0 arts).1 →
      root.isPrefixOf q = true) := by
  refine ⟨?_, ?_, ?_⟩
  · intro fs arts
    induction arts with
    | nil => intro q; simp [process_artifacts]
    | cons a rest ih =>
      intro q
      constructor
      · intro hq
        rcases ha : a.path with _ | p
        · simp only [process_artifacts, ha] at hq
          rcases (ih q).mp hq with ⟨b, hb, rest'⟩
          exact ⟨b, by simp [hb], rest'⟩
        · simp only [process_artifacts, ha] at hq
          by_cases hc : a.type = "file" ∧ p ≠ ""
          · rw [if_pos hc] at hq
            by_cases hpre : root.isPrefixOf (resolveArtifactPath root p)
            · rw [if_pos hpre] at hq
              by_cases hfs : resolveArtifactPath root p ∈ fs
              · rw [if_pos hfs] at hq
                rcases List.mem_cons.mp hq with hq | hq
                · subst hq
                  exact ⟨a, by simp, hc.1, p, ha, hc.2, rfl, hpre, hfs⟩
                · rcases (ih q).mp hq with ⟨b, hb, rest'⟩
                  exact ⟨b, by simp [hb], rest'⟩
              · rw [if_neg hfs] at hq
                rcases (ih q).mp hq with ⟨b, hb, rest'⟩
                exact ⟨b, by simp [hb], rest'⟩
            · rw [if_neg hpre] at hq
              rcases (ih q).mp hq with ⟨b, hb, rest'⟩
              exact ⟨b, by simp [hb], rest'⟩
          · rw [if_neg hc] at hq
            rcases (ih q).mp hq with ⟨b, hb, rest'⟩
            exact ⟨b, by simp [hb], rest'⟩
      · rintro ⟨b, hb, htype, p, hpath, hp, hres, hpre, hfs⟩
        rcases List.mem_cons.mp hb with hb | hb
        · subst hb
          simp only [process_artifacts, hpath, if_pos (And.intro htype hp),
            hres, if_pos hpre, if_pos hfs]
          exact List.mem_cons_self _ _
        · have hrest := (ih q).mpr ⟨b, hb, htype, p, hpath, hp, hres, hpre, hfs⟩
          rcases ha : a.path with _ | p'
          · simp only [process_artifacts, ha]
            exact hrest
          · simp only [process_artifacts, ha]
            by_cases hc : a.type = "file" ∧ p' ≠ ""
            · rw [if_pos hc]
              by_cases hpre' : root.isPrefixOf (resolveArtifactPath root p')
              · rw [if_pos hpre']
                by_cases hfs' : resolveArtifactPath root p' ∈ fs
                · rw [if_pos hfs']; exact List.mem_cons_of_mem _ hrest
                · rw [if_neg hfs']; exact hrest
              · rw [if_neg hpre']; exact hrest
            · rw [if_neg hc]; exact hrest
  · intro fs0 arts
    induction arts generalizing fs0 with
    | nil => intro w hw; simp [runLoopArtifacts] at hw
    | cons a rest ih =>
      intro w hw
      simp only [runLoopArtifacts] at hw
      by_cases h1 : a.type = "file" ∧ truthyPath a = true
      · rw [if_pos h1] at hw
        by_cases hpre : root.isPrefixOf (resolveArtifactPath root (a.path.getD ""))
        · rw [if_pos hpre] at hw
          by_cases hfs : resolveArtifactPath root (a.path.getD "") ∈ fs0
          · rw [if_pos hfs] at hw
            exact ih fs0 w hw
          · rw [if_neg hfs] at hw
            exact ih fs0 w hw
        · rw [if_neg hpre] at hw
          exact ih fs0 w hw
      · rw [if_neg h1] at hw
        by_cases h2 : a.type = "file" ∧ truthyContent a = true
        · rw [if_pos h2] at hw
          by_cases hpre : root.isPrefixOf (resolveArtifactPath root a.name)
          · rw [if_pos hpre] at hw
            rcases List.mem_cons.mp hw with hw | hw
            · subst hw; exact hpre
            · exact ih _ w hw
          · rw [if_neg hpre] at hw
            exact ih fs0 w hw
        · rw [if_neg h2] at hw
          exact ih fs0 w hw
  · intro fs0 arts
    induction arts generalizing fs0 with
    | nil => intro q hq; simp [runLoopArtifacts] at hq
    | cons a rest ih =>
      intro q hq
      simp only [runLoopArtifacts] at hq
      by_cases h1 : a.type = "file" ∧ truthyPath a = true
      · rw [if_pos h1] at hq
        by_cases hpre : root.isPrefixOf (resolveArtifactPath root (a.path.getD ""))
        · rw [if_pos hpre] at hq
          by_cases hfs : resolveArtifactPath root (a.path.getD "") ∈ fs0
          · rw [if_pos hfs] at hq
            rcases List.mem_cons.mp hq with hq | hq
            · subst hq; exact hpre
            · exact ih fs0 q hq
          · rw [if_neg hfs] at hq
            exact ih fs0 q hq
        · rw [if_neg hpre] at hq
          exact ih fs0 q hq
      · rw [if_neg h1] at hq
        by_cases h2 : a.type = "file" ∧ truthyContent a = true
        · rw [if_pos h2] at hq
          by_cases hpre : root.isPrefixOf (resolveArtifactPath root a.name)
          · rw [if_pos hpre] at hq
            rcases List.mem_cons.mp hq with hq | hq
            · subst hq; exact hpre
            · exact ih _ q hq
          · rw [if_neg hpre] at hq
            exact ih fs0 q hq
        · rw [if_neg h2] at hq
          exact ih fs0 q hq

/-- Witness for C1, on the spec's own example: root `/home/proj`, artifacts
`../../etc/passwd` (escapes) and `subdir/file.txt` (exists): exactly the
latter is registered, at the correctly joined path, and the former is
neither registered nor written. -/
theorem artifact_path_validation_witness :
    (["home", "proj", "subdir", "file.txt"] ∈
      process_artifacts ["home", "proj"]
        [["home", "proj", "subdir", "file.txt"]]
        [{ name := "passwd", type := "file", path := some "../../etc/passwd" },
         { name := "f", type := "file", path := some "subdir/file.txt" }]) ∧
    (["etc", "passwd"] ∉
      process_artifacts ["home", "proj"]
        [["home", "proj", "subdir", "file.txt"]]
        [{ name := "passwd", type := "file", path := some "../../etc/passwd" },
         { name := "f", type := "file", path := some "subdir/file.txt" }]) := by
  constructor
  · exact ((artifact_path_validation ["home", "proj"]).1 _ _ _).mpr
      ⟨{ name := "f", type := "file", path := some "subdir/file.txt" },
        by decide, rfl, "subdir/file.txt", rfl, by decide, by decide, by decide,
        by decide⟩
  · decide

/-! ## C3: phase computation -/

/-- Fold-max bound: the max of a list is below any common bound. -/
theorem foldrMax_le {l : List Nat} {c : Nat} (h : ∀ x ∈ l, x ≤ c) :
    l.foldr max 0 ≤ c := by
  induction l with
  | nil => simp
  | cons x xs ih =>
    simp only [List.foldr_cons]
    exact max_le (h x (by simp)) (ih fun y hy => h y (by simp [hy]))

/-- Fold-max is an upper bound of the list members. -/
theorem le_foldrMax {l : List Nat} {x : Nat} (hx : x ∈ l) :
    x ≤ l.foldr max 0 := by
  induction l with
  | nil => simp at hx
  | cons y ys ih =>
    simp only [List.foldr_cons]
    rcases List.mem_cons.mp hx with h | h
    · subst h; exact le_max_left _ _
    · exact le_trans (ih h) (le_max_right _ _)

/-- Fold-max is zero or attained by a member. -/
theorem foldrMax_eq_zero_or_mem (l : List Nat) :
    l.foldr max 0 = 0 ∨ l.foldr max 0 ∈ l := by
  induction l with
  | nil => left; rfl
  | cons x xs ih =>
    simp only [List.foldr_cons]
    rcases Nat.le_total x (xs.foldr max 0) with h | h
    · rw [max_eq_right h]
      rcases ih with h0 | hm
      · left; exact h0
      · right; exact List.mem_cons_of_mem _ hm
    · rw [max_eq_left h]
      right; exact List.mem_cons_self _ _

/-- Phase index at a cons, member case. -/
theorem phaseIndexOf_cons_mem {ph : List AgentType}
    {phases : List (List AgentType)} {a : AgentType} (h : a ∈ ph) :
    phaseIndexOf (ph :: phases) a = 1 := by
  simp [phaseIndexOf, h]

/-- Phase index at a cons, non-member case. -/
theorem phaseIndexOf_cons_of_not_mem {ph : List AgentType}
    {phases : List (List AgentType)} {a : AgentType} (h : a ∉ ph) :
    phaseIndexOf (ph :: phases) a
      = if phaseIndexOf phases a = 0 then 0 else phaseIndexOf phases a + 1 := by
  simp [phaseIndexOf, h]

/-- Zero phase index means absence from every phase. -/
theorem phaseIndexOf_eq_zero_iff {phases : List (List AgentType)}
    {a : AgentType} : phaseIndexOf phases a = 0 ↔ a ∉ phases.flatten := by
  induction phases with
  | nil => simp [phaseIndexOf]
  | cons ph rest ih =>
    by_cases hm : a ∈ ph
    · rw [phaseIndexOf_cons_mem hm]
      constructor
      · intro h10; omega
      · intro hnot
        exact absurd (List.mem_flatten.mpr ⟨ph, by simp, hm⟩) hnot
    · rw [phaseIndexOf_cons_of_not_mem hm]
      by_cases h0 : phaseIndexOf rest a = 0
      · simp only [h0, if_pos rfl]
        constructor
        · intro _ hmem
          rcases List.mem_flatten.mp hmem with ⟨l, hl, hal⟩
          rcases List.mem_cons.mp hl with hl | hl
          · exact hm (hl ▸ hal)
          · exact ih.mp h0 (List.mem_flatten.mpr ⟨l, hl, hal⟩)
        · intro _; rfl
      · simp only [if_neg h0]
        constructor
        · intro hcon; omega
        · intro hmem
          exfalso
          have ha : a ∈ rest.flatten := by
            by_contra hr
            exact h0 (ih.mpr hr)
          exact hmem (by
            rcases List.mem_flatten.mp ha with ⟨l, hl, hal⟩
            exact List.mem_flatten.mpr ⟨l, List.mem_cons_of_mem _ hl, hal⟩)

/-- A member of some phase has positive phase index. -/
theorem phaseIndexOf_pos {phases : List (List AgentType)} {a : AgentType}
    (h : a ∈ phases.flatten) : 1 ≤ phaseIndexOf phases a := by
  rcases Nat.eq_zero_or_pos (phaseIndexOf phases a) with h0 | h1
  · exact absurd h (phaseIndexOf_eq_zero_iff.mp h0)
  · exact h1

/-- Full correctness of the `_compute_phases` loop, for any completed
accumulator: on a duplicate-free remaining set whose members' prerequisites
all lie in `completed` or in the set itself, and with no cycle inside the
set, the loop succeeds and produces phases that partition the set with
earliest-possible phase indices (`index = max of prerequisite indices + 1`,
where roles outside the produced phases count as index 0). -/
theorem computePhasesAux_spec (deps : AgentType → List AgentType) :
    ∀ (n : Nat) (completed remaining : List AgentType),
      remaining.length ≤ n →
      remaining.Nodup →
      (∀ a ∈ remaining, a ∉ completed) →
      (∀ a ∈ remaining, ∀ d ∈ deps a, d ∈ completed ∨ d ∈ remaining) →
      SubsetAcyclic deps remaining →
      ∃ phases, computePhasesAux deps completed remaining = .ok phases ∧
        phases.flatten.Nodup ∧
        (∀ x, x ∈ phases.flatten ↔ x ∈ remaining) ∧
        (∀ a ∈ remaining,
          phaseIndexOf phases a
            = ((deps a).map (phaseIndexOf phases)).foldr max 0 + 1) := by
  intro n
  induction n with
  | zero =>
    intro completed remaining hlen _ _ _ _
    have hrem : remaining = [] := List.length_eq_zero.mp (Nat.le_zero.mp hlen)
    subst hrem
    exact ⟨[], by rw [computePhasesAux]; simp, by simp, by simp, by simp⟩
  | succ n ih =>
    intro completed remaining hlen hnd hdisj hclo hacy
    by_cases hempty : remaining = []
    · subst hempty
      exact ⟨[], by rw [computePhasesAux]; simp, by simp, by simp, by simp⟩
    · have hready_ne : remaining.filter (phaseReady deps completed) ≠ [] := by
        intro hnil
        apply hacy
        refine ⟨remaining, hempty, fun c hc => hc, ?_⟩
        intro c hc
        have hcp := (List.filter_eq_nil_iff.mp hnil) c hc
        have hcp2 : ¬ ∀ d ∈ deps c, d ∈ completed := by
          simpa [phaseReady, List.all_eq_true] using hcp
        push_neg at hcp2
        obtain ⟨d, hd, hdnc⟩ := hcp2
        rcases hclo c hc d hd with hcase | hcase
        · exact absurd hcase hdnc
        · exact ⟨d, hd, hcase⟩
      have hlen2 : (remaining.filter
          (fun a => ! phaseReady deps completed a)).length ≤ n := by
        have h := List.length_eq_length_filter_add (l := remaining)
          (phaseReady deps completed)
        have hpos : 0 < (remaining.filter (phaseReady deps completed)).length :=
          List.length_pos.mpr hready_ne
        omega
      have hnd2 : (remaining.filter
          (fun a => ! phaseReady deps completed a)).Nodup := hnd.filter _
      have hdisj2 : ∀ a ∈ remaining.filter
          (fun a => ! phaseReady deps completed a),
          a ∉ completed ++ remaining.filter (phaseReady deps completed) := by
        intro a ha
        rcases List.mem_filter.mp ha with ⟨haR, hap⟩
        simp only [List.mem_append]
        rintro (hc | hr)
        · exact hdisj a haR hc
        · have := (List.mem_filter.mp hr).2
          simp [this] at hap
      have hclo2 : ∀ a ∈ remaining.filter
          (fun a => ! phaseReady deps completed a), ∀ d ∈ deps a,
          d ∈ completed ++ remaining.filter (phaseReady deps completed) ∨
          d ∈ remaining.filter (fun a => ! phaseReady deps completed a) := by
        intro a ha d hd
        rcases hclo a (List.mem_filter.mp ha).1 d hd with hc | hr
        · exact Or.inl (List.mem_append.mpr (Or.inl hc))
        · by_cases hpd : phaseReady deps completed d = true
          · exact Or.inl (List.mem_append.mpr
              (Or.inr (List.mem_filter.mpr ⟨hr, hpd⟩)))
          · exact Or.inr (List.mem_filter.mpr ⟨hr, by simp [hpd]⟩)
      have hacy2 : SubsetAcyclic deps
          (remaining.filter (fun a => ! phaseReady deps completed a)) := by
        rintro ⟨C, hne, hsub, hcyc⟩
        exact hacy ⟨C, hne, fun c hc => (List.mem_filter.mp (hsub c hc)).1, hcyc⟩
      obtain ⟨phases2, hok2, hndf2, hmem2, heq2⟩ :=
        ih (completed ++ remaining.filter (phaseReady deps completed))
          (remaining.filter (fun a => ! phaseReady deps completed a))
          hlen2 hnd2 hdisj2 hclo2 hacy2
      have hmemfull : ∀ x,
          x ∈ ((remaining.filter (phaseReady deps completed)) :: phases2).flatten
            ↔ x ∈ remaining := by
        intro x
        simp only [List.flatten_cons, List.mem_append]
        constructor
        · rintro (h | h)
          · exact (List.mem_filter.mp h).1
          · exact (List.mem_filter.mp ((hmem2 x).mp h)).1
        · intro hx
          by_cases hpx : phaseReady deps completed x = true
          · exact Or.inl (List.mem_filter.mpr ⟨hx, hpx⟩)
          · exact Or.inr ((hmem2 x).mpr (List.mem_filter.mpr ⟨hx, by simp [hpx]⟩))
      have hndfull :
          ((remaining.filter (phaseReady deps completed)) :: phases2).flatten.Nodup := by
        simp only [List.flatten_cons]
        rw [List.nodup_append]
        refine ⟨hnd.filter _, hndf2, ?_⟩
        intro x hx hx2
        have h1 := (List.mem_filter.mp hx).2
        have h2 := (List.mem_filter.mp ((hmem2 x).mp hx2)).2
        simp [h1] at h2
      have heqfull : ∀ a ∈ remaining,
          phaseIndexOf ((remaining.filter (phaseReady deps completed)) :: phases2) a
            = ((deps a).map
                (phaseIndexOf ((remaining.filter (phaseReady deps completed)) :: phases2))).foldr
                max 0 + 1 := by
        intro a ha
        by_cases hpa : phaseReady deps completed a = true
        · have haR : a ∈ remaining.filter (phaseReady deps completed) :=
            List.mem_filter.mpr ⟨ha, hpa⟩
          rw [phaseIndexOf_cons_mem haR]
          have hzero : ∀ d ∈ deps a,
              phaseIndexOf ((remaining.filter (phaseReady deps completed)) :: phases2) d
                = 0 := by
            intro d hd
            have hdc : d ∈ completed := by
              have hall : ∀ x ∈ deps a, x ∈ completed := by
                simpa [phaseReady, List.all_eq_true] using hpa
              exact hall d hd
            apply phaseIndexOf_eq_zero_iff.mpr
            intro hdf
            exact hdisj d ((hmemfull d).mp hdf) hdc
          have hmax0 : ((deps a).map
              (phaseIndexOf ((remaining.filter (phaseReady deps completed)) :: phases2))).foldr
              max 0 = 0 := by
            refine Nat.le_zero.mp (foldrMax_le ?_)
            intro x hx
            rcases List.mem_map.mp hx with ⟨d, hd, rfl⟩
            exact Nat.le_of_eq (hzero d hd)
          omega
        · have haR2 : a ∈ remaining.filter
              (fun a => ! phaseReady deps completed a) :=
            List.mem_filter.mpr ⟨ha, by simp [hpa]⟩
          have hidx2 := heq2 a haR2
          have hanotready : a ∉ remaining.filter (phaseReady deps completed) :=
            fun hr => hpa (List.mem_filter.mp hr).2
          have hne0 : phaseIndexOf phases2 a ≠ 0 := by omega
          rw [phaseIndexOf_cons_of_not_mem hanotready, if_neg hne0]
          have hM1le : ((deps a).map
              (phaseIndexOf ((remaining.filter (phaseReady deps completed)) :: phases2))).foldr
              max 0
              ≤ ((deps a).map (phaseIndexOf phases2)).foldr max 0 + 1 := by
            refine foldrMax_le ?_
            intro x hx
            rcases List.mem_map.mp hx with ⟨d, hd, rfl⟩
            by_cases hdrem : d ∈ remaining
            · by_cases hpd : phaseReady deps completed d = true
              · rw [phaseIndexOf_cons_mem (List.mem_filter.mpr ⟨hdrem, hpd⟩)]
                omega
              · have hd2 : d ∈ remaining.filter
                    (fun a => ! phaseReady deps completed a) :=
                  List.mem_filter.mpr ⟨hdrem, by simp [hpd]⟩
                have hidxd := heq2 d hd2
                have hd_le : phaseIndexOf phases2 d
                    ≤ ((deps a).map (phaseIndexOf phases2)).foldr max 0 :=
                  le_foldrMax (List.mem_map.mpr ⟨d, hd, rfl⟩)
                have hnotr : d ∉ remaining.filter (phaseReady deps completed) :=
                  fun hr => hpd (List.mem_filter.mp hr).2
                rw [phaseIndexOf_cons_of_not_mem hnotr, if_neg (by omega)]
                omega
            · rw [phaseIndexOf_eq_zero_iff.mpr
                (fun hf => hdrem ((hmemfull d).mp hf))]
              omega
          have hM1ge : ((deps a).map (phaseIndexOf phases2)).foldr max 0 + 1
              ≤ ((deps a).map
                  (phaseIndexOf ((remaining.filter (phaseReady deps completed)) :: phases2))).foldr
                  max 0 := by
            by_cases hM00 : ((deps a).map (phaseIndexOf phases2)).foldr max 0 = 0
            · rw [hM00]
              have hnall : ¬ ∀ d ∈ deps a, d ∈ completed := by
                simpa [phaseReady, List.all_eq_true] using hpa
              push_neg at hnall
              obtain ⟨d, hd, hdnc⟩ := hnall
              rcases hclo a ha d hd with hc | hr
              · exact absurd hc hdnc
              · have hpos : 1 ≤ phaseIndexOf
                    ((remaining.filter (phaseReady deps completed)) :: phases2) d :=
                  phaseIndexOf_pos ((hmemfull d).mpr hr)
                have hle := le_foldrMax
                  (l := (deps a).map
                    (phaseIndexOf ((remaining.filter (phaseReady deps completed)) :: phases2)))
                  (List.mem_map.mpr ⟨d, hd, rfl⟩)
                omega
            · rcases foldrMax_eq_zero_or_mem
                ((deps a).map (phaseIndexOf phases2)) with h0 | hmem
              · exact absurd h0 hM00
              · rcases List.mem_map.mp hmem with ⟨d, hd, hdeq⟩
                have hdpos : 1 ≤ phaseIndexOf phases2 d := by omega
                have hdflat : d ∈ phases2.flatten := by
                  by_contra hnf
                  rw [phaseIndexOf_eq_zero_iff.mpr hnf] at hdpos
                  omega
                have hd2 : d ∈ remaining.filter
                    (fun a => ! phaseReady deps completed a) := (hmem2 d).mp hdflat
                have hnotr : d ∉ remaining.filter (phaseReady deps completed) := by
                  intro hr
                  have := (List.mem_filter.mp hr).2
                  have := (List.mem_filter.mp hd2).2
                  simp_all
                have hfull : phaseIndexOf
                    ((remaining.filter (phaseReady deps completed)) :: phases2) d
                    = phaseIndexOf phases2 d + 1 := by
                  rw [phaseIndexOf_cons_of_not_mem hnotr, if_neg (by omega)]
                have hle := le_foldrMax
                  (l := (deps a).map
                    (phaseIndexOf ((remaining.filter (phaseReady deps completed)) :: phases2)))
                  (List.mem_map.mpr ⟨d, hd, rfl⟩)
                omega
          omega
      refine ⟨(remaining.filter (phaseReady deps completed)) :: phases2,
        ?_, hndfull, hmemfull, heqfull⟩
      rw [computePhasesAux]
      rw [if_neg (fun hh => hempty (List.isEmpty_iff.mp hh))]
      rw [dif_neg (fun hh => hready_ne (List.isEmpty_iff.mp hh))]
      rw [hok2]

/-- A nonempty list has a member of minimal rank. -/
theorem exists_rank_min (f : AgentType → Nat) (l : List AgentType)
    (h : l ≠ []) : ∃ a ∈ l, ∀ b ∈ l, f a ≤ f b := by
  induction l with
  | nil => exact absurd rfl h
  | cons x xs ih =>
    by_cases hxs : xs = []
    · subst hxs
      exact ⟨x, by simp, by simp⟩
    · obtain ⟨a, ha, hmin⟩ := ih hxs
      by_cases hfa : f x ≤ f a
      · refine ⟨x, by simp, ?_⟩
        intro b hb
        rcases List.mem_cons.mp hb with hb | hb
        · subst hb; exact le_refl _
        · exact le_trans hfa (hmin b hb)
      · refine ⟨a, List.mem_cons_of_mem _ ha, ?_⟩
        intro b hb
        rcases List.mem_cons.mp hb with hb | hb
        · subst hb; exact Nat.le_of_lt (Nat.lt_of_not_le hfa)
        · exact hmin b hb

/-- A rank function that strictly decreases along in-subset prerequisites
certifies acyclicity of the restricted relation. -/
theorem subsetAcyclic_of_rank (deps : AgentType → List AgentType)
    (agents : List AgentType) (rank : AgentType → Nat)
    (h : ∀ c ∈ agents, ∀ d ∈ deps c, d ∈ agents → rank d < rank c) :
    SubsetAcyclic deps agents := by
  rintro ⟨C, hne, hsub, hcyc⟩
  obtain ⟨c, hcC, hcmin⟩ := exists_rank_min rank C hne
  obtain ⟨d, hd, hdC⟩ := hcyc c hcC
  have hlt := h c (hsub c hcC) d hd (hsub d hdC)
  have hge := hcmin d hdC
  omega

/-- C3 counterexample.  The subset `{ARCHITECT}` is acyclic (its restricted
prerequisite relation is empty), yet `_compute_phases` raises its
unresolvable-dependency `RuntimeError` instead of producing a partition,
because the readiness test demands ALL prerequisites (here `PM`, outside the
subset) be completed. -/
theorem compute_phases_counterexample :
    SubsetAcyclic configDeps [AgentType.ARCHITECT] ∧
    compute_phases configDeps [AgentType.ARCHITECT]
      = .error phasesStuckMsg := by
  constructor
  · rintro ⟨C, hne, hsub, hcyc⟩
    obtain ⟨c, hc⟩ := List.exists_mem_of_ne_nil C hne
    have hcA : c = AgentType.ARCHITECT := by simpa using hsub c hc
    subst hcA
    obtain ⟨d, hd, hdC⟩ := hcyc _ hc
    have hdPM : d = AgentType.PM := by
      have hconf : configDeps AgentType.ARCHITECT = [AgentType.PM] := rfl
      rw [hconf] at hd
      simpa using hd
    have hdA := hsub d hdC
    rw [hdPM] at hdA
    simp at hdA
  · rw [compute_phases, computePhasesAux]
    have h : phaseReady configDeps [] AgentType.ARCHITECT = false := by decide
    simp [h]

/-- C3 amended.  For every duplicate-free, dependency-closed subset of agent
roles whose restricted prerequisite relation is acyclic, `_compute_phases`
produces a partition of the subset (each role in exactly one phase) in which
each role's 1-based phase index equals one plus the maximum phase index of
its prerequisites — strictly greater than each prerequisite's index and the
minimum such index (earliest-possible scheduling) — and phase 1 contains
exactly the roles with no prerequisites.  (For a subset that is not
dependency-closed the claim fails: see the counterexample — the code
requires ALL prerequisites, not just in-subset ones, to be satisfied.) -/
theorem compute_phases_correct (agents : List AgentType)
    (h1 : agents.Nodup) (h2 : DepClosed configDeps agents)
    (h3 : SubsetAcyclic configDeps agents) :
    ∃ phases, compute_phases configDeps agents = .ok phases ∧
      phases.flatten.Nodup ∧
      (∀ x, x ∈ phases.flatten ↔ x ∈ agents) ∧
      (∀ a ∈ agents, phaseIndexOf phases a
          = ((configDeps a).map (phaseIndexOf phases)).foldr max 0 + 1) ∧
      (∀ a ∈ agents, (a ∈ phases.headD [] ↔ configDeps a = [])) := by
  obtain ⟨phases, hok, hnd, hmem, heq⟩ :=
    computePhasesAux_spec configDeps agents.length [] agents le_rfl h1
      (by simp) (fun a ha d hd => Or.inr (h2 a ha d hd)) h3
  refine ⟨phases, hok, hnd, hmem, heq, ?_⟩
  intro a ha
  cases phases with
  | nil => exact absurd ((hmem a).mpr ha) (by simp)
  | cons ph rest =>
    simp only [List.headD_cons]
    constructor
    · intro haph
      have h1a : phaseIndexOf (ph :: rest) a = 1 := phaseIndexOf_cons_mem haph
      have heqa := heq a ha
      have hmax0 : ((configDeps a).map (phaseIndexOf (ph :: rest))).foldr max 0
          = 0 := by omega
      cases hdeps : configDeps a with
      | nil => rfl
      | cons d ds =>
        exfalso
        have hd : d ∈ configDeps a := by rw [hdeps]; simp
        have hdag : d ∈ agents := h2 a ha d hd
        have hdpos : 1 ≤ phaseIndexOf (ph :: rest) d :=
          phaseIndexOf_pos ((hmem d).mpr hdag)
        have hle := le_foldrMax
          (l := (configDeps a).map (phaseIndexOf (ph :: rest)))
          (List.mem_map.mpr ⟨d, hd, rfl⟩)
        omega
    · intro hdeps
      have heqa := heq a ha
      rw [hdeps] at heqa
      simp only [List.map_nil, List.foldr_nil, Nat.zero_add] at heqa
      by_contra haph
      rw [phaseIndexOf_cons_of_not_mem haph] at heqa
      by_cases h0 : phaseIndexOf rest a = 0
      · rw [if_pos h0] at heqa
        omega
      · rw [if_neg h0] at heqa
        omega

/-- Witness for the amended C3 theorem: the closed acyclic subset
`{PM, ARCHITECT}`. -/
theorem compute_phases_correct_witness :
    ∃ phases, compute_phases configDeps [AgentType.PM, AgentType.ARCHITECT]
        = .ok phases ∧
      phases.flatten.Nodup ∧
      (∀ x, x ∈ phases.flatten ↔ x ∈ [AgentType.PM, AgentType.ARCHITECT]) ∧
      (∀ a ∈ [AgentType.PM, AgentType.ARCHITECT], phaseIndexOf phases a
          = ((configDeps a).map (phaseIndexOf phases)).foldr max 0 + 1) ∧
      (∀ a ∈ [AgentType.PM, AgentType.ARCHITECT],
        (a ∈ phases.headD [] ↔ configDeps a = [])) :=
  compute_phases_correct [AgentType.PM, AgentType.ARCHITECT]
    (by decide)
    (by intro a ha; fin_cases ha <;> decide)
    (subsetAcyclic_of_rank configDeps [AgentType.PM, AgentType.ARCHITECT]
      (fun a => match a with | AgentType.PM => 0 | _ => 1)
      (by decide))

/-! ## C2 and C4: the DFS topological sort -/

/-- The unvisited count never exceeds the subset size. -/
theorem count0_le (agents : List AgentType) (st : AgentType → Nat) :
    count0 agents st ≤ agents.length :=
  List.length_filter_le _ _

/-- Pointwise-larger states have no more unvisited entries. -/
theorem count0_mono_pointwise (agents : List AgentType)
    (st st2 : AgentType → Nat) (h : ∀ x, st2 x = 0 → st x = 0) :
    count0 agents st2 ≤ count0 agents st := by
  unfold count0
  simp only [← List.countP_eq_length_filter]
  refine List.countP_mono_left ?_
  intro x _ hx
  simp only [decide_eq_true_eq] at hx ⊢
  exact h x hx

/-- Marking an unvisited subset member strictly decreases the unvisited
count. -/
theorem count0_update_one (agents : List AgentType) (st : AgentType → Nat)
    (node : AgentType) (hn : node ∈ agents) (h0 : st node = 0) :
    count0 agents (Function.update st node 1) + 1 ≤ count0 agents st := by
  unfold count0
  induction agents with
  | nil => simp at hn
  | cons a rest ih =>
    by_cases ha : a = node
    · subst ha
      have h1 : Function.update st a 1 a = 1 := by simp
      have hmono : ((rest.filter (fun x => Function.update st a 1 x = 0)).length)
          ≤ (rest.filter (fun x => st x = 0)).length := by
        simp only [← List.countP_eq_length_filter]
        refine List.countP_mono_left ?_
        intro x _ hx
        simp only [decide_eq_true_eq] at hx ⊢
        by_cases hxa : x = a
        · subst hxa; simp at hx
        · simpa [Function.update_noteq hxa] using hx
      simp only [List.filter_cons, h1, h0]
      simp only [decide_eq_true_eq]
      norm_num
      omega
    · have hupd : Function.update st node 1 a = st a :=
        Function.update_noteq ha _ _
      have hnrest : node ∈ rest := by
        rcases List.mem_cons.mp hn with h | h
        · exact absurd h.symm ha
        · exact h
      have := ih hnrest
      simp only [List.filter_cons, hupd]
      by_cases hsa : st a = 0
      · simp only [hsa, decide_eq_true_eq]
        norm_num
        omega
      · simp only [hsa, decide_eq_true_eq]
        norm_num
        omega

/-- Appending a node whose in-subset prerequisites are already listed keeps
the ordering property. -/
theorem orderRespects_append (deps : AgentType → List AgentType)
    (agents res : List AgentType) (node : AgentType)
    (hor : OrderRespects deps agents res)
    (hdeps : ∀ d ∈ deps node, d ∈ agents → d ∈ res) :
    OrderRespects deps agents (res ++ [node]) := by
  intro i hi d hd hda
  have hlen : (res ++ [node]).length = res.length + 1 := by simp
  by_cases hlt : i < res.length
  · have hget : (res ++ [node]).get ⟨i, hi⟩ = res.get ⟨i, hlt⟩ := by
      simp [List.getElem_append_left hlt]
    rw [hget] at hd
    have hmem := hor i hlt d hd hda
    rw [List.take_append_eq_append_take,
      Nat.sub_eq_zero_of_le (le_of_lt hlt)]
    simpa using hmem
  · have hieq : i = res.length := by omega
    have hget : (res ++ [node]).get ⟨i, hi⟩ = node := by
      simp only [List.get_eq_getElem]
      exact List.getElem_concat_length res node i hieq _
    rw [hget] at hd
    rw [List.take_append_eq_append_take, hieq]
    simpa using hdeps d hd hda

/-- A member of a take-prefix has index below the prefix length. -/
theorem indexOf_lt_of_mem_take {l : List AgentType} {i : Nat} {d : AgentType}
    (h : d ∈ l.take i) : l.indexOf d < i := by
  induction l generalizing i with
  | nil => simp at h
  | cons x xs ih =>
    cases i with
    | zero => simp at h
    | succ j =>
      simp only [List.take_succ_cons] at h
      rcases List.mem_cons.mp h with h | h
      · subst h
        simp [List.indexOf_cons_self]
      · by_cases hxd : x = d
        · subst hxd
          simp [List.indexOf_cons_self]
        · rw [List.indexOf_cons_ne _ (by simpa using hxd)]
          exact Nat.succ_lt_succ (ih h)

/-- A DFS ancestor stack that contains the node being visited yields a
dependency cycle inside the subset. -/
theorem stack_cycle (deps : AgentType → List AgentType)
    (agents : List AgentType) (node : AgentType) (S : List AgentType)
    (hchain : stackChain deps agents (node :: S)) (hmem : node ∈ S) :
    ∃ C, CycleWitness deps agents C := by
  obtain ⟨⟨k, hk⟩, hkeq⟩ := List.mem_iff_get.mp hmem
  have hlink := List.chain'_iff_get.mp hchain
  have hlen : (node :: S).length = S.length + 1 := by simp
  have hgets : ∀ (a b : Nat) (ha : a < (node :: S).length)
      (hb : b < (node :: S).length), a = b →
      (node :: S).get ⟨a, ha⟩ = (node :: S).get ⟨b, hb⟩ := by
    intro a b ha hb hab
    subst hab
    rfl
  refine ⟨(node :: S).take (k + 2), ?_, ?_, ?_⟩
  · simp [List.take_succ_cons]
  · intro c hc
    obtain ⟨i, hi, hieq⟩ := List.mem_take_iff_getElem.mp hc
    have hiS : i < S.length + 1 := by
      have := lt_of_lt_of_le hi (min_le_right _ _)
      omega
    by_cases hlast : i < S.length
    · have hR := hlink i (by omega)
      have hgc : (node :: S).get ⟨i, by omega⟩ = c := by
        simpa using hieq
      rw [hgc] at hR
      exact hR.2.1
    · have hieqS : i = S.length := by omega
      have hpos : 1 ≤ i := by omega
      have hR := hlink (i - 1) (by omega)
      have hgc : (node :: S).get ⟨i - 1 + 1, by omega⟩ = c := by
        refine (hgets (i - 1 + 1) i (by omega) (by omega) (by omega)).trans ?_
        simpa using hieq
      rw [hgc] at hR
      exact hR.2.2
  · intro c hc
    obtain ⟨i, hi, hieq⟩ := List.mem_take_iff_getElem.mp hc
    have hkS : k < S.length := hk
    have himin : i < k + 2 := lt_of_lt_of_le hi (min_le_left _ _)
    obtain ⟨j, hjlen, hj1, hjle, hjeq⟩ :
        ∃ j, ∃ hjlen : j < (node :: S).length, 1 ≤ j ∧ j ≤ k + 1 ∧
          (node :: S).get ⟨j, hjlen⟩ = c := by
      rcases Nat.eq_zero_or_pos i with h0 | hpos
      · refine ⟨k + 1, by omega, by omega, le_refl _, ?_⟩
        have hc0 : c = node := by
          subst h0
          simpa using hieq.symm
        subst hc0
        simpa using hkeq
      · have hilen : i < (node :: S).length := by
          have := lt_of_lt_of_le hi (min_le_right _ _)
          omega
        refine ⟨i, hilen, hpos, by omega, ?_⟩
        simpa using hieq
    have hR := hlink (j - 1) (by omega)
    have hg2 : (node :: S).get ⟨j - 1 + 1, by omega⟩ = c :=
      (hgets (j - 1 + 1) j (by omega) hjlen (by omega)).trans hjeq
    rw [hg2] at hR
    refine ⟨(node :: S).get ⟨j - 1, by omega⟩, hR.1, ?_⟩
    refine List.mem_take_iff_getElem.mpr ⟨j - 1, ?_, ?_⟩
    · omega
    · simp

/-- The dependency-loop contract follows from the visit contract at the
same fuel (the loop passes its fuel through unchanged). -/
theorem topoVisitList_spec_of (deps : AgentType → List AgentType)
    (agents : List AgentType) (fuel : Nat)
    (hV : VisitSpec deps agents fuel) : ListSpec deps agents fuel := by
  intro st0 res0 L0 parent S hinv0 hparent hL0 hone0 hchain
  have main : ∀ (L : List AgentType),
      (∀ d ∈ L, d ∈ deps parent ∧ d ∈ agents) →
      ∀ (st : AgentType → Nat) (res : List AgentType),
      topoInv deps agents st res → (∀ x, st x = 1 ↔ x ∈ parent :: S) →
      (∃ st2 res2, topoVisitList deps agents fuel st res L = .ok (st2, res2) ∧
        topoInv deps agents st2 res2 ∧ (∀ d ∈ L, st2 d = 2) ∧
        (∀ x, st x ≤ st2 x) ∧ (∀ x, st x = 1 ↔ st2 x = 1) ∧
        ∃ t, res2 = res ++ t) ∨
      (topoVisitList deps agents fuel st res L = .error topoCycleMsg ∧
        ∃ C, CycleWitness deps agents C) ∨
      (topoVisitList deps agents fuel st res L = .error topoFuelMsg ∧
        fuel ≤ count0 agents st) := by
    intro L
    induction L with
    | nil =>
      intro _ st res hinv hone
      left
      exact ⟨st, res, by rw [topoVisitList], hinv, by simp,
        fun x => le_refl _, fun x => Iff.rfl, [], by simp⟩
    | cons d ds ih =>
      intro hL st res hinv hone
      obtain ⟨hd_dep, hd_ag⟩ := hL d (by simp)
      have hchain2 : stackChain deps agents (d :: parent :: S) := by
        rw [stackChain, List.chain'_cons]
        exact ⟨⟨hd_dep, hd_ag, hparent⟩, hchain⟩
      rcases hV st res d (parent :: S) hinv hd_ag hone hchain2 with
        ⟨st2, res2, hok, hinv2, hd2, hmono2, hone2, t2, ht2⟩ |
        ⟨herr, hcw⟩ | ⟨herr, hcnt⟩
      · have hone2' : ∀ x, st2 x = 1 ↔ x ∈ parent :: S :=
          fun x => ((hone2 x).symm.trans (hone x))
        rcases ih (fun d' hd' => hL d' (by simp [hd'])) st2 res2 hinv2 hone2'
          with ⟨st3, res3, hok3, hinv3, hall3, hmono3, hone3, t3, ht3⟩ |
          ⟨herr3, hcw3⟩ | ⟨herr3, hcnt3⟩
        · left
          refine ⟨st3, res3, ?_, hinv3, ?_, ?_, ?_, ?_⟩
          · rw [topoVisitList, hok]
            exact hok3
          · intro d' hd'
            rcases List.mem_cons.mp hd' with hd' | hd'
            · subst hd'
              have hle3 := hmono3 d'
              have hle2' := hinv3.1 d'
              omega
            · exact hall3 d' hd'
          · intro x
            exact le_trans (hmono2 x) (hmono3 x)
          · intro x
            exact (hone2 x).trans (hone3 x)
          · exact ⟨t2 ++ t3, by rw [ht3, ht2, List.append_assoc]⟩
        · right; left
          refine ⟨?_, hcw3⟩
          rw [topoVisitList, hok]
          exact herr3
        · right; right
          constructor
          · rw [topoVisitList, hok]
            exact herr3
          · have hc := count0_mono_pointwise agents st st2 (by
              intro x hx
              have := hmono2 x
              omega)
            omega
      · right; left
        refine ⟨?_, hcw⟩
        rw [topoVisitList, herr]
      · right; right
        constructor
        · rw [topoVisitList, herr]
        · exact hcnt
  exact main L0 hL0 st0 res0 hinv0 hone0

/-- The visit contract holds at every fuel. -/
theorem topoVisit_spec (deps : AgentType → List AgentType)
    (agents : List AgentType) : ∀ fuel, VisitSpec deps agents fuel := by
  intro fuel
  induction fuel with
  | zero =>
    intro st res node S _ _ _ _
    right; right
    exact ⟨by rw [topoVisit], Nat.zero_le _⟩
  | succ n ih =>
    have hLn : ListSpec deps agents n := topoVisitList_spec_of deps agents n ih
    intro st res node S hinv hnode hone hchain
    by_cases h1 : st node = 1
    · right; left
      refine ⟨?_, stack_cycle deps agents node S hchain ((hone node).mp h1)⟩
      rw [topoVisit, if_pos h1]
    · by_cases h2 : st node = 2
      · left
        refine ⟨st, res, ?_, hinv, h2, fun x => le_refl _,
          fun x => Iff.rfl, [], by simp⟩
        rw [topoVisit, if_neg h1, if_pos h2]
      · have h0 : st node = 0 := by
          have := hinv.1 node
          omega
        have hinv1 : topoInv deps agents (Function.update st node 1) res := by
          obtain ⟨hle, h2iff, hnd, hord, hmem⟩ := hinv
          refine ⟨?_, ?_, hnd, hord, hmem⟩
          · intro x
            by_cases hx : x = node
            · subst hx; simp
            · simpa [Function.update_noteq hx] using hle x
          · intro x
            by_cases hx : x = node
            · subst hx
              simp only [Function.update_same]
              constructor
              · intro hcon; omega
              · intro hmem2
                have hcontr := (h2iff x).mpr hmem2
                omega
            · simpa [Function.update_noteq hx] using h2iff x
        have hone1 : ∀ x, Function.update st node 1 x = 1 ↔ x ∈ node :: S := by
          intro x
          by_cases hx : x = node
          · subst hx; simp
          · rw [Function.update_noteq hx]
            rw [hone x]
            simp [hx]
        have hLargs : ∀ d ∈ (deps node).filter (fun d => decide (d ∈ agents)),
            d ∈ deps node ∧ d ∈ agents := by
          intro d hd
          have hmf := List.mem_filter.mp hd
          exact ⟨hmf.1, by simpa using hmf.2⟩
        rcases hLn (Function.update st node 1) res
            ((deps node).filter (fun d => decide (d ∈ agents))) node S
            hinv1 hnode hLargs hone1 hchain with
          ⟨st2, res2, hok, hinv2, hall2, hmono2, hone2, t2, ht2⟩ |
          ⟨herr, hcw⟩ | ⟨herr, hcnt⟩
        · left
          have hst2node : st2 node = 1 := (hone2 node).mp (by simp)
          have hnode_not_res2 : node ∉ res2 := by
            intro hmem2
            have := (hinv2.2.1 node).mpr hmem2
            omega
          obtain ⟨hle2, h2iff2, hnd2, hord2, hmem2'⟩ := hinv2
          refine ⟨Function.update st2 node 2, res2 ++ [node], ?_, ?_,
            by simp, ?_, ?_, ?_⟩
          · rw [topoVisit, if_neg h1, if_neg h2, hok]
          · refine ⟨?_, ?_, ?_, ?_, ?_⟩
            · intro x
              by_cases hx : x = node
              · subst hx; simp
              · simpa [Function.update_noteq hx] using hle2 x
            · intro x
              by_cases hx : x = node
              · subst hx; simp
              · rw [Function.update_noteq hx]
                rw [h2iff2 x]
                simp [hx]
            · rw [List.nodup_append]
              refine ⟨hnd2, by simp, ?_⟩
              intro a ha hb
              simp only [List.mem_singleton] at hb
              subst hb
              exact hnode_not_res2 ha
            · apply orderRespects_append deps agents res2 node hord2
              intro d hd hda
              have hdL : d ∈ (deps node).filter (fun d => decide (d ∈ agents)) :=
                List.mem_filter.mpr ⟨hd, by simpa⟩
              exact (h2iff2 d).mp (hall2 d hdL)
            · intro x hx
              rcases List.mem_append.mp hx with hx | hx
              · exact hmem2' x hx
              · simp only [List.mem_singleton] at hx
                subst hx
                exact hnode
          · intro x
            by_cases hx : x = node
            · subst hx
              simp [h0]
            · rw [Function.update_noteq hx]
              have hm := hmono2 x
              rw [Function.update_noteq hx] at hm
              exact hm
          · intro x
            by_cases hx : x = node
            · subst hx
              simp [h0]
            · rw [Function.update_noteq hx]
              have ha := hone2 x
              rw [Function.update_noteq hx] at ha
              exact ha
          · exact ⟨t2 ++ [node], by rw [ht2, List.append_assoc]⟩
        · right; left
          refine ⟨?_, hcw⟩
          rw [topoVisit, if_neg h1, if_neg h2, herr]
        · right; right
          constructor
          · rw [topoVisit, if_neg h1, if_neg h2, herr]
          · have := count0_update_one agents st node hnode h0
            omega

/-- The invariant holds for the initial all-unvisited state. -/
theorem topoInv_init (deps : AgentType → List AgentType)
    (agents : List AgentType) : topoInv deps agents (fun _ => 0) [] := by
  refine ⟨by intro x; simp, by simp, by simp, ?_, by simp⟩
  intro i hi d hd hda
  simp at hi

/-- Contract of the outer loop of `topological_sort` at the fuel the entry
point uses: it either succeeds with the invariant and all iterated agents
emitted, or fails with the cycle error on a subset containing a cycle (the
fuel error is unreachable at this fuel). -/
theorem topoLoop_spec (deps : AgentType → List AgentType)
    (agents : List AgentType) :
    ∀ (iter : List AgentType) (st : AgentType → Nat) (res : List AgentType),
      topoInv deps agents st res →
      (∀ x, st x ≠ 1) →
      (∀ x ∈ iter, x ∈ agents) →
      (∃ st2 res2,
        topoLoop deps agents (agents.length + 1) st res iter = .ok (st2, res2) ∧
        topoInv deps agents st2 res2 ∧ (∀ a ∈ iter, st2 a = 2) ∧
        (∀ x, st x ≤ st2 x) ∧ (∀ x, st2 x ≠ 1)) ∨
      (topoLoop deps agents (agents.length + 1) st res iter
          = .error topoCycleMsg ∧
        ∃ C, CycleWitness deps agents C) := by
  intro iter
  induction iter with
  | nil =>
    intro st res hinv hno1 _
    left
    exact ⟨st, res, by rw [topoLoop], hinv, by simp,
      fun x => le_refl _, hno1⟩
  | cons a rest ih =>
    intro st res hinv hno1 hiter
    by_cases h0 : st a = 0
    · rcases topoVisit_spec deps agents (agents.length + 1) st res a []
          hinv (hiter a (by simp)) (by intro x; simpa using hno1 x)
          (by simp [stackChain]) with
        ⟨st2, res2, hok, hinv2, ha2, hmono2, hone2, t2, ht2⟩ |
        ⟨herr, hcw⟩ | ⟨herr, hcnt⟩
      · have hno1' : ∀ x, st2 x ≠ 1 := fun x h => hno1 x ((hone2 x).mpr h)
        rcases ih st2 res2 hinv2 hno1' (fun x hx => hiter x (by simp [hx])) with
          ⟨st3, res3, hok3, hinv3, hall3, hmono3, hno13⟩ | ⟨herr3, hcw3⟩
        · left
          refine ⟨st3, res3, ?_, hinv3, ?_,
            fun x => le_trans (hmono2 x) (hmono3 x), hno13⟩
          · rw [topoLoop, if_pos h0, hok]
            exact hok3
          · intro a' ha'
            rcases List.mem_cons.mp ha' with ha' | ha'
            · subst ha'
              have hm := hmono3 a'
              have hle := hinv3.1 a'
              omega
            · exact hall3 a' ha'
        · right
          refine ⟨?_, hcw3⟩
          rw [topoLoop, if_pos h0, hok]
          exact herr3
      · right
        refine ⟨?_, hcw⟩
        rw [topoLoop, if_pos h0, herr]
      · exfalso
        have := count0_le agents st
        omega
    · have ha2 : st a = 2 := by
        have hle := hinv.1 a
        have := hno1 a
        omega
      rcases ih st res hinv hno1 (fun x hx => hiter x (by simp [hx])) with
        ⟨st3, res3, hok3, hinv3, hall3, hmono3, hno13⟩ | ⟨herr3, hcw3⟩
      · left
        refine ⟨st3, res3, ?_, hinv3, ?_, hmono3, hno13⟩
        · rw [topoLoop, if_neg h0]
          exact hok3
        · intro a' ha'
          rcases List.mem_cons.mp ha' with ha' | ha'
          · subst ha'
            have hm := hmono3 a'
            have hle := hinv3.1 a'
            omega
          · exact hall3 a' ha'
      · right
        refine ⟨?_, hcw3⟩
        rw [topoLoop, if_neg h0]
        exact herr3

/-- C2.  For every duplicate-free subset of agent roles whose restricted
prerequisite relation (via `get_agent_config`) is acyclic,
`WorkflowMapper.topological_sort` returns a permutation of exactly the
input roles in which every role appears strictly after each of its
prerequisites that is also in the subset. -/
theorem topological_sort_correct (agents : List AgentType)
    (hnd : agents.Nodup) (hacy : SubsetAcyclic configDeps agents) :
    ∃ res, topological_sort configDeps agents = .ok res ∧
      agents.Perm res ∧ OrderRespects configDeps agents res := by
  rcases topoLoop_spec configDeps agents agents (fun _ => 0) []
      (topoInv_init configDeps agents) (by intro x; simp)
      (fun x hx => hx) with
    ⟨st2, res2, hok, hinv2, hall2, _, _⟩ | ⟨herr, hcw⟩
  · refine ⟨res2, ?_, ?_, hinv2.2.2.2.1⟩
    · rw [topological_sort, hok]
    · rw [List.perm_ext_iff_of_nodup hnd hinv2.2.2.1]
      intro a
      constructor
      · intro ha
        exact (hinv2.2.1 a).mp (hall2 a ha)
      · intro ha
        exact hinv2.2.2.2.2 a ha
  · exact absurd hcw hacy

/-- Witness for C2: the subset `{PM, ARCHITECT, TL_CORE_API}` (acyclic by
the rank PM 0, ARCHITECT 1, TL_CORE_API 2). -/
theorem topological_sort_correct_witness :
    ∃ res, topological_sort configDeps
        [AgentType.TL_CORE_API, AgentType.PM, AgentType.ARCHITECT]
        = .ok res ∧
      List.Perm [AgentType.TL_CORE_API, AgentType.PM, AgentType.ARCHITECT] res ∧
      OrderRespects configDeps
        [AgentType.TL_CORE_API, AgentType.PM, AgentType.ARCHITECT] res :=
  topological_sort_correct
    [AgentType.TL_CORE_API, AgentType.PM, AgentType.ARCHITECT]
    (by decide)
    (subsetAcyclic_of_rank configDeps
      [AgentType.TL_CORE_API, AgentType.PM, AgentType.ARCHITECT]
      (fun a => match a with
        | AgentType.PM => 0
        | AgentType.ARCHITECT => 1
        | _ => 2)
      (by decide))

/-- On a cycle inside the remaining set, disjoint from the completed
accumulator, the `_compute_phases` loop always raises. -/
theorem computePhasesAux_cyclic (deps : AgentType → List AgentType) :
    ∀ (n : Nat) (completed remaining C : List AgentType),
      remaining.length ≤ n →
      CycleWitness deps remaining C →
      (∀ c ∈ C, c ∉ completed) →
      computePhasesAux deps completed remaining = .error phasesStuckMsg := by
  intro n
  induction n with
  | zero =>
    intro completed remaining C hlen hcw hdisj
    obtain ⟨hne, hsub, _⟩ := hcw
    obtain ⟨c, hc⟩ := List.exists_mem_of_ne_nil C hne
    have := hsub c hc
    have hrem : remaining = [] :=
      List.length_eq_zero.mp (Nat.le_zero.mp hlen)
    rw [hrem] at this
    simp at this
  | succ n ih =>
    intro completed remaining C hlen hcw hdisj
    obtain ⟨hne, hsub, hcyc⟩ := hcw
    have hrem_ne : remaining ≠ [] := by
      obtain ⟨c, hc⟩ := List.exists_mem_of_ne_nil C hne
      intro h
      rw [h] at hsub
      exact absurd (hsub c hc) (by simp)
    rw [computePhasesAux]
    rw [if_neg (fun hh => hrem_ne (List.isEmpty_iff.mp hh))]
    by_cases hready : (remaining.filter (phaseReady deps completed)).isEmpty
    · rw [dif_pos hready]
    · rw [dif_neg hready]
      have hCnotready : ∀ c ∈ C, ¬ phaseReady deps completed c = true := by
        intro c hc hp
        obtain ⟨d, hd, hdC⟩ := hcyc c hc
        have hall : ∀ x ∈ deps c, x ∈ completed := by
          simpa [phaseReady, List.all_eq_true] using hp
        exact hdisj d hdC (hall d hd)
      have hsub2 : ∀ c ∈ C,
          c ∈ remaining.filter (fun a => ! phaseReady deps completed a) := by
        intro c hc
        exact List.mem_filter.mpr ⟨hsub c hc, by simp [hCnotready c hc]⟩
      have hcw2 : CycleWitness deps
          (remaining.filter (fun a => ! phaseReady deps completed a)) C :=
        ⟨hne, hsub2, hcyc⟩
      have hdisj2 : ∀ c ∈ C,
          c ∉ completed ++ remaining.filter (phaseReady deps completed) := by
        intro c hc
        simp only [List.mem_append]
        rintro (h | h)
        · exact hdisj c hc h
        · exact hCnotready c hc (List.mem_filter.mp h).2
      have hlen2 : (remaining.filter
          (fun a => ! phaseReady deps completed a)).length ≤ n := by
        have h := List.length_eq_length_filter_add (l := remaining)
          (phaseReady deps completed)
        have hpos : 0 < (remaining.filter (phaseReady deps completed)).length :=
          List.length_pos.mpr (fun hh => by simp [hh] at hready)
        omega
      rw [ih (completed ++ remaining.filter (phaseReady deps completed))
        (remaining.filter (fun a => ! phaseReady deps completed a)) C
        hlen2 hcw2 hdisj2]

/-- C4.  For every subset of agent roles that contains a dependency cycle
among its members (under the dependency lookup `deps`, which the resolver
consults through `get_agent_config`), `topological_sort` raises exactly its
cycle-detection `ValueError` and `_compute_phases` raises exactly its
unresolvable-dependency `RuntimeError`; neither returns an ordering. -/
theorem cyclic_subset_errors (deps : AgentType → List AgentType)
    (agents C : List AgentType) (hcw : CycleWitness deps agents C) :
    topological_sort deps agents = .error topoCycleMsg ∧
    compute_phases deps agents = .error phasesStuckMsg := by
  constructor
  · rcases topoLoop_spec deps agents agents (fun _ => 0) []
        (topoInv_init deps agents) (by intro x; simp)
        (fun x hx => hx) with
      ⟨st2, res2, hok, hinv2, hall2, _, _⟩ | ⟨herr, _⟩
    · exfalso
      obtain ⟨hCne, hCsub, hCcyc⟩ := hcw
      obtain ⟨c, hcC, hcmin⟩ := exists_rank_min (fun a => res2.indexOf a) C hCne
      obtain ⟨d, hdd, hdC⟩ := hCcyc c hcC
      have hcres : c ∈ res2 := (hinv2.2.1 c).mp (hall2 c (hCsub c hcC))
      have hidx : res2.indexOf c < res2.length :=
        List.indexOf_lt_length.mpr hcres
      have hget : res2.get ⟨res2.indexOf c, hidx⟩ = c := by
        simp only [List.get_eq_getElem]
        exact List.getElem_indexOf hidx
      have horder := hinv2.2.2.2.1 (res2.indexOf c) hidx d
        (by rw [hget]; exact hdd) (hCsub d hdC)
      have hlt := indexOf_lt_of_mem_take horder
      have hge := hcmin d hdC
      simp only at hlt hge
      omega
    · rw [topological_sort, herr]
  · exact computePhasesAux_cyclic deps agents.length [] agents C le_rfl hcw
      (by simp)

/-- Witness for C4: the two-element subset `{PM, ARCHITECT}` under a
dependency lookup making each the prerequisite of the other. -/
theorem cyclic_subset_errors_witness :
    topological_sort
        (fun a => match a with
          | AgentType.PM => [AgentType.ARCHITECT]
          | AgentType.ARCHITECT => [AgentType.PM]
          | _ => [])
        [AgentType.PM, AgentType.ARCHITECT] = .error topoCycleMsg ∧
    compute_phases
        (fun a => match a with
          | AgentType.PM => [AgentType.ARCHITECT]
          | AgentType.ARCHITECT => [AgentType.PM]
          | _ => [])
        [AgentType.PM, AgentType.ARCHITECT] = .error phasesStuckMsg :=
  cyclic_subset_errors _ [AgentType.PM, AgentType.ARCHITECT]
    [AgentType.PM, AgentType.ARCHITECT]
    ⟨by decide, by decide, by decide⟩

/-! ## C6: serializer round trip

Helper lemmas about prefixes, literal consumption and the escape map,
leading to the round-trip theorem for `ContextSerializer.serialize` with
the structural parser, and to a serialization-collision counterexample
showing the claim fails for arbitrary text in the verbatim-embedded
fields. -/

/-- Rebuilding a string from its characters is the identity. -/
theorem mkData (s : String) : String.mk s.data = s := rfl

theorem isPrefixOf_append_self (as bs : List Char) :
    as.isPrefixOf (as ++ bs) = true := by
  induction as with
  | nil => cases bs <;> rfl
  | cons a as ih =>
    show (a == a && as.isPrefixOf (as ++ bs)) = true
    simp [ih]

theorem isPrefixOf_append_false (p q r : List Char) (i : Nat)
    (hp : i < p.length) (hq : i < q.length)
    (hne : p.get ⟨i, hp⟩ ≠ q.get ⟨i, hq⟩) :
    p.isPrefixOf (q ++ r) = false := by
  induction i generalizing p q with
  | zero =>
    match p, q with
    | a :: p, b :: q =>
      simp only [List.get] at hne
      show (a == b && p.isPrefixOf (q ++ r)) = false
      simp [hne]
  | succ i ih =>
    match p, q with
    | a :: p, b :: q =>
      simp only [List.get] at hne
      show (a == b && p.isPrefixOf (q ++ r)) = false
      by_cases hab : a = b
      · subst hab
        have := ih p q (Nat.lt_of_succ_lt_succ hp) (Nat.lt_of_succ_lt_succ hq) hne
        simp [this]
      · simp [hab]

theorem expectLit_append (lit : String) (rest : List Char) :
    expectLit lit (lit.data ++ rest) = some rest := by
  have h := isPrefixOf_append_self lit.data rest
  simp only [expectLit, h, if_true]
  have hlen : lit.length = lit.data.length := rfl
  rw [hlen, List.drop_left]

theorem expectLit_append_none (lit : String) (q r : List Char) (i : Nat)
    (hp : i < lit.data.length) (hq : i < q.length)
    (hne : lit.data.get ⟨i, hp⟩ ≠ q.get ⟨i, hq⟩) :
    expectLit lit (q ++ r) = none := by
  simp [expectLit, isPrefixOf_append_false lit.data q r i hp hq hne]

theorem expectChar_cons (c : Char) (r : List Char) :
    expectChar c (c :: r) = some r := by
  simp [expectChar]

theorem takeUntilChar_append (c : Char) (a rest : List Char) (h : c ∉ a) :
    takeUntilChar c (a ++ c :: rest) = some (a, rest) := by
  have htw : (a ++ c :: rest).takeWhile (fun x => x != c) = a := by
    induction a with
    | nil => simp [List.takeWhile_cons]
    | cons x a ih =>
      have hx : x ≠ c := by intro hxc; exact h (by simp [hxc])
      have ha : c ∉ a := fun hc => h (by simp [hc])
      simp [List.takeWhile_cons, hx, ih ha]
  simp only [takeUntilChar, htw]
  have hd : (a ++ c :: rest).drop a.length = c :: rest := by
    simpa using List.drop_left a (c :: rest)
  simp [hd]

theorem splitFirst_boundary (hc : Char) (ptl a b : List Char) (ha : hc ∉ a) :
    splitFirst (hc :: ptl) (a ++ (hc :: ptl) ++ b) = some (a, b) := by
  induction a with
  | nil =>
    have e : splitFirst (hc :: ptl) (hc :: (ptl ++ b)) =
        if (hc :: ptl).isPrefixOf (hc :: (ptl ++ b)) then
          some ([], (hc :: (ptl ++ b)).drop (hc :: ptl).length)
        else (splitFirst (hc :: ptl) (ptl ++ b)).map (fun q => (hc :: q.1, q.2)) := rfl
    have hpre := isPrefixOf_append_self (hc :: ptl) b
    rw [List.cons_append] at hpre
    have hdrop : (hc :: (ptl ++ b)).drop (hc :: ptl).length = b := by
      rw [← List.cons_append, List.drop_left]
    rw [List.nil_append, List.cons_append, e, if_pos hpre, hdrop]
  | cons x a ih =>
    have hx : hc ≠ x := by intro hxc; exact ha (by simp [hxc])
    have ha2 : hc ∉ a := fun hcmem => ha (by simp [hcmem])
    have hfalse : (hc :: ptl).isPrefixOf (x :: (a ++ ((hc :: ptl) ++ b))) = false := by
      show (hc == x && ptl.isPrefixOf (a ++ ((hc :: ptl) ++ b))) = false
      simp [hx]
    have e : splitFirst (hc :: ptl) (x :: (a ++ ((hc :: ptl) ++ b))) =
        if (hc :: ptl).isPrefixOf (x :: (a ++ ((hc :: ptl) ++ b))) then
          some ([], (x :: (a ++ ((hc :: ptl) ++ b))).drop (hc :: ptl).length)
        else (splitFirst (hc :: ptl) (a ++ ((hc :: ptl) ++ b))).map
          (fun q => (x :: q.1, q.2)) := rfl
    have harr : (x :: a) ++ (hc :: ptl) ++ b = x :: (a ++ ((hc :: ptl) ++ b)) := by
      simp [List.append_assoc]
    rw [harr, e, if_neg (by rw [hfalse]; exact Bool.false_ne_true)]
    have := ih ha2
    rw [List.append_assoc] at this
    rw [this]
    rfl

theorem replaceChar_append (c : Char) (rep a b : List Char) :
    replaceChar c rep (a ++ b) = replaceChar c rep a ++ replaceChar c rep b := by
  induction a with
  | nil => rfl
  | cons x a ih => simp [replaceChar, ih]

theorem escape_eq_flatMap (s : List Char) : escape_xml s = s.flatMap escChar := by
  induction s with
  | nil => rfl
  | cons c s ih =>
    have hsplit : escape_xml (c :: s) = escape_xml [c] ++ escape_xml s := by
      show escape_xml ([c] ++ s) = _
      simp only [escape_xml, replaceChar_append]
    rw [hsplit, ih, List.flatMap_cons]
    congr 1
    by_cases h1 : c = '&'
    · subst h1; rfl
    by_cases h2 : c = '<'
    · subst h2; rfl
    by_cases h3 : c = '>'
    · subst h3; rfl
    by_cases h4 : c = quotC
    · subst h4; rfl
    by_cases h5 : c = aposC
    · subst h5; rfl
    simp [escape_xml, replaceChar, escChar, h1, h2, h3, h4, h5]

theorem escChar_no_lt {x c : Char} (hx : x ∈ escChar c) : x ≠ '<' := by
  by_cases h1 : c = '&'
  · subst h1; rw [show escChar '&' = "&amp;".data from rfl] at hx
    fin_cases hx <;> decide
  by_cases h2 : c = '<'
  · subst h2; rw [show escChar '<' = "&lt;".data from rfl] at hx
    fin_cases hx <;> decide
  by_cases h3 : c = '>'
  · subst h3; rw [show escChar '>' = "&gt;".data from rfl] at hx
    fin_cases hx <;> decide
  by_cases h4 : c = quotC
  · subst h4; rw [show escChar quotC = "&quot;".data from rfl] at hx
    fin_cases hx <;> decide
  by_cases h5 : c = aposC
  · subst h5; rw [show escChar aposC = "&apos;".data from rfl] at hx
    fin_cases hx <;> decide
  have he : escChar c = [c] := by simp [escChar, h1, h2, h3, h4, h5]
  rw [he] at hx
  simp at hx
  subst hx
  exact h2

theorem escape_no_lt (s : List Char) : '<' ∉ escape_xml s := by
  rw [escape_eq_flatMap]
  intro hmem
  rw [List.mem_flatMap] at hmem
  obtain ⟨c, _, hc⟩ := hmem
  exact escChar_no_lt hc rfl

theorem unescape_escChar (c : Char) (t : List Char) :
    unescape (escChar c ++ t) = c :: unescape t := by
  by_cases h1 : c = '&'
  · subst h1
    rw [show escChar '&' ++ t = '&' :: ('a' :: 'm' :: 'p' :: ';' :: t) from by simp [escChar]]
    rw [unescape]
    rw [if_pos rfl]
    have hpre : ("amp;".data).isPrefixOf ('a' :: 'm' :: 'p' :: ';' :: t) = true := by
      simpa using isPrefixOf_append_self "amp;".data t
    rw [if_pos hpre]
    simp [List.drop]
  by_cases h2 : c = '<'
  · subst h2
    rw [show escChar '<' ++ t = '&' :: ('l' :: 't' :: ';' :: t) from by simp [escChar]]
    rw [unescape]
    rw [if_pos rfl]
    have hno : ("amp;".data).isPrefixOf ('l' :: 't' :: ';' :: t) = false := by
      show (('a' == 'l') && _) = false
      simp
    rw [if_neg (by simp [hno])]
    have hpre : ("lt;".data).isPrefixOf ('l' :: 't' :: ';' :: t) = true := by
      simpa using isPrefixOf_append_self "lt;".data t
    rw [if_pos hpre]
    simp [List.drop]
  by_cases h3 : c = '>'
  · subst h3
    rw [show escChar '>' ++ t = '&' :: ('g' :: 't' :: ';' :: t) from by simp [escChar]]
    rw [unescape]
    rw [if_pos rfl]
    have hno1 : ("amp;".data).isPrefixOf ('g' :: 't' :: ';' :: t) = false := by
      show (('a' == 'g') && _) = false
      simp
    rw [if_neg (by simp [hno1])]
    have hno2 : ("lt;".data).isPrefixOf ('g' :: 't' :: ';' :: t) = false := by
      show (('l' == 'g') && _) = false
      simp
    rw [if_neg (by simp [hno2])]
    have hpre : ("gt;".data).isPrefixOf ('g' :: 't' :: ';' :: t) = true := by
      simpa using isPrefixOf_append_self "gt;".data t
    rw [if_pos hpre]
    simp [List.drop]
  by_cases h4 : c = quotC
  · subst h4
    rw [show escChar quotC = "&quot;".data from rfl]
    rw [show "&quot;".data ++ t = '&' :: ('q' :: 'u' :: 'o' :: 't' :: ';' :: t) from rfl]
    rw [unescape]
    rw [if_pos rfl]
    have hno1 : ("amp;".data).isPrefixOf ('q' :: 'u' :: 'o' :: 't' :: ';' :: t) = false := by
      show (('a' == 'q') && _) = false
      simp
    rw [if_neg (by simp [hno1])]
    have hno2 : ("lt;".data).isPrefixOf ('q' :: 'u' :: 'o' :: 't' :: ';' :: t) = false := by
      show (('l' == 'q') && _) = false
      simp
    rw [if_neg (by simp [hno2])]
    have hno3 : ("gt;".data).isPrefixOf ('q' :: 'u' :: 'o' :: 't' :: ';' :: t) = false := by
      show (('g' == 'q') && _) = false
      simp
    rw [if_neg (by simp [hno3])]
    have hpre : ("quot;".data).isPrefixOf ('q' :: 'u' :: 'o' :: 't' :: ';' :: t) = true := by
      simpa using isPrefixOf_append_self "quot;".data t
    rw [if_pos hpre]
    simp [List.drop]
  by_cases h5 : c = aposC
  · subst h5
    rw [show escChar aposC = "&apos;".data from rfl]
    rw [show "&apos;".data ++ t = '&' :: ('a' :: 'p' :: 'o' :: 's' :: ';' :: t) from rfl]
    rw [unescape]
    rw [if_pos rfl]
    have hno1 : ("amp;".data).isPrefixOf ('a' :: 'p' :: 'o' :: 's' :: ';' :: t) = false := by
      show (('a' == 'a') && (("mp;".data).isPrefixOf ('p' :: 'o' :: 's' :: ';' :: t))) = false
      show (('a' == 'a') && (('m' == 'p') && _)) = false
      simp
    rw [if_neg (by simp [hno1])]
    have hno2 : ("lt;".data).isPrefixOf ('a' :: 'p' :: 'o' :: 's' :: ';' :: t) = false := by
      show (('l' == 'a') && _) = false
      simp
    rw [if_neg (by simp [hno2])]
    have hno3 : ("gt;".data).isPrefixOf ('a' :: 'p' :: 'o' :: 's' :: ';' :: t) = false := by
      show (('g' == 'a') && _) = false
      simp
    rw [if_neg (by simp [hno3])]
    have hno4 : ("quot;".data).isPrefixOf ('a' :: 'p' :: 'o' :: 's' :: ';' :: t) = false := by
      show (('q' == 'a') && _) = false
      simp
    rw [if_neg (by simp [hno4])]
    have hpre : ("apos;".data).isPrefixOf ('a' :: 'p' :: 'o' :: 's' :: ';' :: t) = true := by
      simpa using isPrefixOf_append_self "apos;".data t
    rw [if_pos hpre]
    simp [List.drop]
  have he : escChar c = [c] := by simp [escChar, h1, h2, h3, h4, h5]
  rw [he, List.singleton_append, unescape]
  rw [if_neg h1]

theorem unescape_escape (s : List Char) : unescape (escape_xml s) = s := by
  rw [escape_eq_flatMap]
  induction s with
  | nil => rw [List.flatMap_nil, unescape]
  | cons c s ih => rw [List.flatMap_cons, unescape_escChar, ih]

theorem joinNL_flat (body : List (List Char)) (last : List Char) :
    joinNL (body ++ [last]) = nlFlat body ++ last := by
  induction body with
  | nil => simp [joinNL, nlFlat]
  | cons l body ih =>
    cases hb : body ++ [last] with
    | nil => simp at hb
    | cons y ys =>
      have : joinNL (l :: body ++ [last]) = l ++ '\n' :: joinNL (body ++ [last]) := by
        rw [List.cons_append, hb]
        rfl
      rw [this, ih]
      simp [nlFlat]

theorem parsePathLine_emits (openLit : String) (f : String) (hf : aposC ∉ f.data)
    (t : List Char) :
    parsePathLine openLit
      (openLit.data ++ [aposC] ++ f.data ++ [aposC] ++ "/>".data ++ ['\n'] ++ t)
      = some (f, t) := by
  have h1 : openLit.data ++ [aposC] ++ f.data ++ [aposC] ++ "/>".data ++ ['\n'] ++ t
      = openLit.data ++ (aposC :: (f.data ++ (aposC :: ('/' :: '>' :: '\n' :: t)))) := by
    simp [List.append_assoc]
  rw [h1, parsePathLine]
  rw [expectLit_append]
  simp only [Option.bind_eq_bind, Option.some_bind]
  rw [expectChar_cons]
  simp only [Option.some_bind]
  rw [takeUntilChar_append _ _ _ hf]
  simp only [Option.some_bind]
  rw [show ('/' :: '>' :: '\n' :: t) = "/>\n".data ++ t from rfl]
  rw [expectLit_append]
  simp [mkData]

theorem parseTextLine_emits (openLit closeLit : String) (ctl : List Char)
    (hcl : closeLit.data = '<' :: ctl) (x : String) (t : List Char) :
    parseTextLine openLit closeLit
      (openLit.data ++ escape_xml x.data ++ closeLit.data ++ t)
      = some (x, t) := by
  have h1 : openLit.data ++ escape_xml x.data ++ closeLit.data ++ t
      = openLit.data ++ (escape_xml x.data ++ closeLit.data ++ t) := by
    simp [List.append_assoc]
  rw [h1, parseTextLine, expectLit_append]
  simp only [Option.bind_eq_bind, Option.some_bind]
  rw [hcl, splitFirst_boundary '<' ctl _ t (escape_no_lt x.data)]
  simp only [Option.some_bind]
  rw [unescape_escape]
  simp [mkData]

theorem parseTextLine_fail (openLit closeLit : String) (s : List Char)
    (h : expectLit openLit s = none) :
    parseTextLine openLit closeLit s = none := by
  rw [parseTextLine, h]
  rfl

theorem parsePathLoop_emits (openLit endLit : String)
    (hne : ∀ r, endLit.data.isPrefixOf (openLit.data ++ r) = false)
    (files : List String) (hfiles : ∀ f ∈ files, aposC ∉ f.data) (rest : List Char) :
    parsePathLoop openLit endLit
      (nlFlat (files.map (fun f =>
        openLit.data ++ [aposC] ++ f.data ++ [aposC] ++ "/>".data)) ++
        endLit.data ++ rest)
      = some (files, rest) := by
  induction files with
  | nil =>
    rw [parsePathLoop]
    have hpre : endLit.data.isPrefixOf
        (nlFlat ([].map (fun f : String =>
          openLit.data ++ [aposC] ++ f.data ++ [aposC] ++ "/>".data)) ++
          endLit.data ++ rest) = true := by
      simpa [nlFlat] using isPrefixOf_append_self endLit.data rest
    rw [if_pos hpre]
    have hdrop : (nlFlat ([].map (fun f : String =>
        openLit.data ++ [aposC] ++ f.data ++ [aposC] ++ "/>".data)) ++
        endLit.data ++ rest).drop endLit.length = rest := by
      simp only [nlFlat, List.map_nil, List.flatMap_nil, List.nil_append]
      have : endLit.length = endLit.data.length := rfl
      rw [this, List.drop_left]
    rw [hdrop]
  | cons f fs ih =>
    have hstream : nlFlat ((f :: fs).map (fun g =>
        openLit.data ++ [aposC] ++ g.data ++ [aposC] ++ "/>".data)) ++
        endLit.data ++ rest
        = openLit.data ++ ([aposC] ++ f.data ++ [aposC] ++ "/>".data ++ ['\n'] ++
            (nlFlat (fs.map (fun g =>
              openLit.data ++ [aposC] ++ g.data ++ [aposC] ++ "/>".data)) ++
              endLit.data ++ rest)) := by
      simp [nlFlat, List.append_assoc]
    rw [parsePathLoop]
    rw [if_neg (by rw [hstream, hne]; exact Bool.false_ne_true)]
    have hline := parsePathLine_emits openLit f (hfiles f (by simp))
        (nlFlat (fs.map (fun g =>
          openLit.data ++ [aposC] ++ g.data ++ [aposC] ++ "/>".data)) ++
          endLit.data ++ rest)
    have hstream2 : nlFlat ((f :: fs).map (fun g =>
        openLit.data ++ [aposC] ++ g.data ++ [aposC] ++ "/>".data)) ++
        endLit.data ++ rest
        = openLit.data ++ [aposC] ++ f.data ++ [aposC] ++ "/>".data ++ ['\n'] ++
            (nlFlat (fs.map (fun g =>
              openLit.data ++ [aposC] ++ g.data ++ [aposC] ++ "/>".data)) ++
              endLit.data ++ rest) := by
      simp [nlFlat, List.append_assoc]
    rw [hstream2, hline]
    have hih := ih (fun g hg => hfiles g (by simp [hg]))
    have hlen : (nlFlat (fs.map (fun g =>
        openLit.data ++ [aposC] ++ g.data ++ [aposC] ++ "/>".data)) ++
        endLit.data ++ rest).length
        < (openLit.data ++ [aposC] ++ f.data ++ [aposC] ++ "/>".data ++ ['\n'] ++
            (nlFlat (fs.map (fun g =>
              openLit.data ++ [aposC] ++ g.data ++ [aposC] ++ "/>".data)) ++
              endLit.data ++ rest)).length := by
      simp [List.length_append]
      omega
    simp only []
    rw [dif_pos hlen, hih]

theorem parseTextLoop_emits (openLit closeLit endLit : String) (ctl : List Char)
    (hcl : closeLit.data = '<' :: ctl)
    (hne : ∀ r, endLit.data.isPrefixOf (openLit.data ++ r) = false)
    (items : List String) (rest : List Char) :
    parseTextLoop openLit closeLit endLit
      (items.flatMap (fun x => openLit.data ++ escape_xml x.data ++ closeLit.data) ++
        endLit.data ++ rest)
      = some (items, rest) := by
  induction items with
  | nil =>
    rw [parseTextLoop]
    have hpre : endLit.data.isPrefixOf
        (([] : List String).flatMap (fun x =>
          openLit.data ++ escape_xml x.data ++ closeLit.data) ++
          endLit.data ++ rest) = true := by
      simpa using isPrefixOf_append_self endLit.data rest
    rw [if_pos hpre]
    have hdrop : (([] : List String).flatMap (fun x =>
        openLit.data ++ escape_xml x.data ++ closeLit.data) ++
        endLit.data ++ rest).drop endLit.length = rest := by
      simp only [List.flatMap_nil, List.nil_append]
      have : endLit.length = endLit.data.length := rfl
      rw [this, List.drop_left]
    rw [hdrop]
  | cons x xs ih =>
    have hstream : (x :: xs).flatMap (fun y =>
        openLit.data ++ escape_xml y.data ++ closeLit.data) ++ endLit.data ++ rest
        = openLit.data ++ (escape_xml x.data ++ closeLit.data ++
            (xs.flatMap (fun y =>
              openLit.data ++ escape_xml y.data ++ closeLit.data) ++
              endLit.data ++ rest)) := by
      simp [List.append_assoc]
    have hstream2 : (x :: xs).flatMap (fun y =>
        openLit.data ++ escape_xml y.data ++ closeLit.data) ++ endLit.data ++ rest
        = openLit.data ++ escape_xml x.data ++ closeLit.data ++
            (xs.flatMap (fun y =>
              openLit.data ++ escape_xml y.data ++ closeLit.data) ++
              endLit.data ++ rest) := by
      simp [List.append_assoc]
    have hline := parseTextLine_emits openLit closeLit ctl hcl x
        (xs.flatMap (fun y =>
          openLit.data ++ escape_xml y.data ++ closeLit.data) ++
          endLit.data ++ rest)
    have hlen : (xs.flatMap (fun y =>
        openLit.data ++ escape_xml y.data ++ closeLit.data) ++
        endLit.data ++ rest).length
        < (openLit.data ++ escape_xml x.data ++ closeLit.data ++
            (xs.flatMap (fun y =>
              openLit.data ++ escape_xml y.data ++ closeLit.data) ++
              endLit.data ++ rest)).length := by
      have hclen : 0 < closeLit.length := by
        rw [show closeLit.length = closeLit.data.length from rfl, hcl]
        simp
      simp [List.length_append]
      omega
    rw [parseTextLoop]
    rw [if_neg (by rw [hstream, hne]; exact Bool.false_ne_true)]
    rw [hstream2, hline]
    simp only []
    rw [dif_pos hlen, ih]

theorem sumSection (os : Option String) (T : List Char)
    (hT : (∃ r, T = "      <artifacts>".data ++ r) ∨
          (∃ r, T = "      <next_steps>".data ++ r) ∨
          (∃ r, T = "      <warnings>".data ++ r) ∨
          (∃ r, T = "    </dependency>".data ++ r)) :
    parseOptSummary (nlFlat (summaryLinesOf os) ++ T)
      = ((match os with
          | some s => if s = "" then none else some s
          | none => none), T) := by
  have hfail : expectLit "      <summary>" T = none := by
    rcases hT with ⟨r, hr⟩ | ⟨r, hr⟩ | ⟨r, hr⟩ | ⟨r, hr⟩ <;> subst hr
    · exact expectLit_append_none _ _ r 7 (by decide) (by decide) (by decide)
    · exact expectLit_append_none _ _ r 7 (by decide) (by decide) (by decide)
    · exact expectLit_append_none _ _ r 7 (by decide) (by decide) (by decide)
    · exact expectLit_append_none _ _ r 4 (by decide) (by decide) (by decide)
  match os with
  | none =>
    rw [show summaryLinesOf none = [] from rfl]
    rw [show nlFlat [] = [] from rfl, List.nil_append]
    rw [parseOptSummary, parseTextLine_fail _ _ _ hfail]
  | some s =>
    by_cases hs : s = ""
    · subst hs
      rw [show summaryLinesOf (some "") = [] from rfl]
      rw [show nlFlat [] = [] from rfl, List.nil_append]
      rw [parseOptSummary, parseTextLine_fail _ _ _ hfail]
      rfl
    · rw [show summaryLinesOf (some s)
          = ["      <summary>".data ++ escape_xml s.data ++ "</summary>".data]
            from by simp [summaryLinesOf, hs]]
      have hstream : nlFlat ["      <summary>".data ++ escape_xml s.data ++
          "</summary>".data] ++ T
          = "      <summary>".data ++ escape_xml s.data ++
            "</summary>\n".data ++ T := by
        simp [nlFlat, List.append_assoc]
      rw [hstream, parseOptSummary,
        parseTextLine_emits "      <summary>" "</summary>\n" "/summary>\n".data rfl s T]
      simp [hs]

theorem nlFlat_map_close (openL closeL closeNL : String)
    (hnl : closeL.data ++ ['\n'] = closeNL.data) (items : List String) :
    nlFlat (items.map (fun x => openL.data ++ escape_xml x.data ++ closeL.data))
      = items.flatMap (fun x =>
          openL.data ++ escape_xml x.data ++ closeNL.data) := by
  induction items with
  | nil => rfl
  | cons x xs ih =>
    simp only [List.map_cons, nlFlat, List.flatMap_cons] at ih ⊢
    rw [ih, ← hnl]
    simp [List.append_assoc]

theorem artSection (files : List String) (hfs : ∀ f ∈ files, aposC ∉ f.data)
    (T : List Char)
    (hT : (∃ r, T = "      <next_steps>".data ++ r) ∨
          (∃ r, T = "      <warnings>".data ++ r) ∨
          (∃ r, T = "    </dependency>".data ++ r)) :
    parseOptArtifacts (nlFlat (artifactLinesOf files) ++ T) = some (files, T) := by
  by_cases hf : files = []
  · subst hf
    have hfail : expectLit "      <artifacts>\n" T = none := by
      rcases hT with ⟨r, hr⟩ | ⟨r, hr⟩ | ⟨r, hr⟩ <;> subst hr
      · exact expectLit_append_none _ _ r 7 (by decide) (by decide) (by decide)
      · exact expectLit_append_none _ _ r 7 (by decide) (by decide) (by decide)
      · exact expectLit_append_none _ _ r 4 (by decide) (by decide) (by decide)
    rw [show artifactLinesOf [] = [] from rfl, show nlFlat [] = [] from rfl,
      List.nil_append, parseOptArtifacts, hfail]
  · rw [show artifactLinesOf files
        = "      <artifacts>".data ::
            (files.map (fun f => "        <artifact path=".data ++ [aposC] ++
              f.data ++ [aposC] ++ "/>".data)) ++ ["      </artifacts>".data]
          from by simp [artifactLinesOf, hf]]
    have hstream : nlFlat ("      <artifacts>".data ::
        (files.map (fun f => "        <artifact path=".data ++ [aposC] ++
          f.data ++ [aposC] ++ "/>".data)) ++ ["      </artifacts>".data]) ++ T
        = "      <artifacts>\n".data ++
            (nlFlat (files.map (fun f => "        <artifact path=".data ++ [aposC] ++
              f.data ++ [aposC] ++ "/>".data)) ++ "      </artifacts>\n".data ++ T) := by
      rw [show ("      <artifacts>\n".data : List Char)
          = "      <artifacts>".data ++ ['\n'] from rfl]
      rw [show ("      </artifacts>\n".data : List Char)
          = "      </artifacts>".data ++ ['\n'] from rfl]
      simp [nlFlat, List.append_assoc]
    rw [hstream, parseOptArtifacts, expectLit_append]
    exact parsePathLoop_emits _ _
      (fun r => isPrefixOf_append_false _ _ r 6 (by decide) (by decide) (by decide))
      files hfs T

theorem stepsSection (items : List String) (T : List Char)
    (hT : (∃ r, T = "      <warnings>".data ++ r) ∨
          (∃ r, T = "    </dependency>".data ++ r)) :
    parseOptSteps (nlFlat (stepLinesOf items) ++ T) = some (items, T) := by
  by_cases hi : items = []
  · subst hi
    have hfail : expectLit "      <next_steps>\n" T = none := by
      rcases hT with ⟨r, hr⟩ | ⟨r, hr⟩ <;> subst hr
      · exact expectLit_append_none _ _ r 7 (by decide) (by decide) (by decide)
      · exact expectLit_append_none _ _ r 4 (by decide) (by decide) (by decide)
    rw [show stepLinesOf [] = [] from rfl, show nlFlat [] = [] from rfl,
      List.nil_append, parseOptSteps, hfail]
  · rw [show stepLinesOf items
        = "      <next_steps>".data ::
            (items.map (fun st => "        <step>".data ++ escape_xml st.data ++
              "</step>".data)) ++ ["      </next_steps>".data]
          from by simp [stepLinesOf, hi]]
    have hstream : nlFlat ("      <next_steps>".data ::
        (items.map (fun st => "        <step>".data ++ escape_xml st.data ++
          "</step>".data)) ++ ["      </next_steps>".data]) ++ T
        = "      <next_steps>\n".data ++
            (items.flatMap (fun st => "        <step>".data ++
              escape_xml st.data ++ "</step>\n".data) ++
              "      </next_steps>\n".data ++ T) := by
      rw [show ("      <next_steps>\n".data : List Char)
          = "      <next_steps>".data ++ ['\n'] from rfl]
      rw [show ("      </next_steps>\n".data : List Char)
          = "      </next_steps>".data ++ ['\n'] from rfl]
      rw [← nlFlat_map_close "        <step>" "</step>" "</step>\n" rfl items]
      simp [nlFlat, List.append_assoc]
    rw [hstream, parseOptSteps, expectLit_append]
    exact parseTextLoop_emits _ _ _ "/step>\n".data rfl
      (fun r => isPrefixOf_append_false _ _ r 6 (by decide) (by decide) (by decide))
      items T

theorem warnSection (items : List String) (T : List Char)
    (hT : ∃ r, T = "    </dependency>".data ++ r) :
    parseOptWarnings (nlFlat (warnLinesOf items) ++ T) = some (items, T) := by
  by_cases hi : items = []
  · subst hi
    have hfail : expectLit "      <warnings>\n" T = none := by
      obtain ⟨r, hr⟩ := hT
      subst hr
      exact expectLit_append_none _ _ r 4 (by decide) (by decide) (by decide)
    rw [show warnLinesOf [] = [] from rfl, show nlFlat [] = [] from rfl,
      List.nil_append, parseOptWarnings, hfail]
  · rw [show warnLinesOf items
        = "      <warnings>".data ::
            (items.map (fun w => "        <warning>".data ++ escape_xml w.data ++
              "</warning>".data)) ++ ["      </warnings>".data]
          from by simp [warnLinesOf, hi]]
    have hstream : nlFlat ("      <warnings>".data ::
        (items.map (fun w => "        <warning>".data ++ escape_xml w.data ++
          "</warning>".data)) ++ ["      </warnings>".data]) ++ T
        = "      <warnings>\n".data ++
            (items.flatMap (fun w => "        <warning>".data ++
              escape_xml w.data ++ "</warning>\n".data) ++
              "      </warnings>\n".data ++ T) := by
      rw [show ("      <warnings>\n".data : List Char)
          = "      <warnings>".data ++ ['\n'] from rfl]
      rw [show ("      </warnings>\n".data : List Char)
          = "      </warnings>".data ++ ['\n'] from rfl]
      rw [← nlFlat_map_close "        <warning>" "</warning>" "</warning>\n" rfl items]
      simp [nlFlat, List.append_assoc]
    rw [hstream, parseOptWarnings, expectLit_append]
    exact parseTextLoop_emits _ _ _ "/warning>\n".data rfl
      (fun r => isPrefixOf_append_false _ _ r 6 (by decide) (by decide) (by decide))
      items T

theorem startsWith_of_cons (h : List Char) (tl : List (List Char)) (T : List Char) :
    ∃ r, nlFlat (h :: tl) ++ T = h ++ r :=
  ⟨'\n' :: (nlFlat tl ++ T), by simp [nlFlat, List.append_assoc]⟩

theorem parseDependency_emits (p : String × PyTask) (hid : aposC ∉ p.1.data)
    (hag : aposC ∉ (p.2.agent_type.value).data)
    (hfs : ∀ f ∈ p.2.context_files, aposC ∉ f.data) (rest : List Char) :
    parseDependency (nlFlat (depLines p) ++ rest) = some (expectedDep p, rest) := by
  have hc3 : ∃ r, ("    </dependency>\n".data ++ rest) = "    </dependency>".data ++ r := by
    refine ⟨'\n' :: rest, ?_⟩
    rw [show ("    </dependency>\n".data : List Char)
        = "    </dependency>".data ++ ['\n'] from rfl]
    simp
  have hc2 : (∃ r, (nlFlat (warnLinesOf p.2.output_warnings) ++ ("    </dependency>\n".data ++ rest)) = "      <warnings>".data ++ r) ∨
      (∃ r, (nlFlat (warnLinesOf p.2.output_warnings) ++ ("    </dependency>\n".data ++ rest)) = "    </dependency>".data ++ r) := by
    by_cases hw : p.2.output_warnings = []
    · rw [hw, show warnLinesOf [] = [] from rfl, show nlFlat [] = [] from rfl,
        List.nil_append]
      exact Or.inr hc3
    · left
      rw [show warnLinesOf p.2.output_warnings
          = "      <warnings>".data ::
              (p.2.output_warnings.map (fun w => "        <warning>".data ++
                escape_xml w.data ++ "</warning>".data)) ++
              ["      </warnings>".data]
            from by simp [warnLinesOf, hw]]
      exact startsWith_of_cons _ _ _
  have hc1 : (∃ r, (nlFlat (stepLinesOf p.2.output_next_steps) ++ (nlFlat (warnLinesOf p.2.output_warnings) ++ ("    </dependency>\n".data ++ rest))) = "      <next_steps>".data ++ r) ∨
      (∃ r, (nlFlat (stepLinesOf p.2.output_next_steps) ++ (nlFlat (warnLinesOf p.2.output_warnings) ++ ("    </dependency>\n".data ++ rest))) = "      <warnings>".data ++ r) ∨
      (∃ r, (nlFlat (stepLinesOf p.2.output_next_steps) ++ (nlFlat (warnLinesOf p.2.output_warnings) ++ ("    </dependency>\n".data ++ rest))) = "    </dependency>".data ++ r) := by
    by_cases hn : p.2.output_next_steps = []
    · rw [hn, show stepLinesOf [] = [] from rfl, show nlFlat [] = [] from rfl,
        List.nil_append]
      exact Or.inr hc2
    · left
      rw [show stepLinesOf p.2.output_next_steps
          = "      <next_steps>".data ::
              (p.2.output_next_steps.map (fun st => "        <step>".data ++
                escape_xml st.data ++ "</step>".data)) ++
              ["      </next_steps>".data]
            from by simp [stepLinesOf, hn]]
      exact startsWith_of_cons _ _ _
  have hc0 : (∃ r, (nlFlat (artifactLinesOf p.2.context_files) ++ (nlFlat (stepLinesOf p.2.output_next_steps) ++ (nlFlat (warnLinesOf p.2.output_warnings) ++ ("    </dependency>\n".data ++ rest)))) = "      <artifacts>".data ++ r) ∨
      (∃ r, (nlFlat (artifactLinesOf p.2.context_files) ++ (nlFlat (stepLinesOf p.2.output_next_steps) ++ (nlFlat (warnLinesOf p.2.output_warnings) ++ ("    </dependency>\n".data ++ rest)))) = "      <next_steps>".data ++ r) ∨
      (∃ r, (nlFlat (artifactLinesOf p.2.context_files) ++ (nlFlat (stepLinesOf p.2.output_next_steps) ++ (nlFlat (warnLinesOf p.2.output_warnings) ++ ("    </dependency>\n".data ++ rest)))) = "      <warnings>".data ++ r) ∨
      (∃ r, (nlFlat (artifactLinesOf p.2.context_files) ++ (nlFlat (stepLinesOf p.2.output_next_steps) ++ (nlFlat (warnLinesOf p.2.output_warnings) ++ ("    </dependency>\n".data ++ rest)))) = "    </dependency>".data ++ r) := by
    by_cases ha : p.2.context_files = []
    · rw [ha, show artifactLinesOf [] = [] from rfl, show nlFlat [] = [] from rfl,
        List.nil_append]
      exact Or.inr hc1
    · left
      rw [show artifactLinesOf p.2.context_files
          = "      <artifacts>".data ::
              (p.2.context_files.map (fun f => "        <artifact path=".data ++
                [aposC] ++ f.data ++ [aposC] ++ "/>".data)) ++
              ["      </artifacts>".data]
            from by simp [artifactLinesOf, ha]]
      exact startsWith_of_cons _ _ _
  have hstream : nlFlat (depLines p) ++ rest
      = "    <dependency id=".data ++ (aposC :: (p.1.data ++ (aposC ::
          (" agent=".data ++ (aposC :: ((p.2.agent_type.value).data ++ (aposC ::
          (">\n".data ++ (nlFlat (summaryLinesOf p.2.output_summary) ++ (nlFlat (artifactLinesOf p.2.context_files) ++ (nlFlat (stepLinesOf p.2.output_next_steps) ++ (nlFlat (warnLinesOf p.2.output_warnings) ++ ("    </dependency>\n".data ++ rest))))))))))))) := by
    rw [show (">\n".data : List Char) = ">".data ++ ['\n'] from rfl]
    rw [show ("    </dependency>\n".data : List Char)
        = "    </dependency>".data ++ ['\n'] from rfl]
    simp [depLines, nlFlat, List.append_assoc]
  rw [hstream, parseDependency, expectLit_append]
  simp only [Option.bind_eq_bind, Option.some_bind]
  rw [expectChar_cons]
  simp only [Option.some_bind]
  rw [takeUntilChar_append _ _ _ hid]
  simp only [Option.some_bind]
  rw [expectLit_append]
  simp only [Option.some_bind]
  rw [expectChar_cons]
  simp only [Option.some_bind]
  rw [takeUntilChar_append _ _ _ hag]
  simp only [Option.some_bind]
  rw [expectLit_append]
  simp only [Option.some_bind]
  rw [sumSection p.2.output_summary _ hc0]
  simp only []
  rw [artSection p.2.context_files hfs _ hc1]
  simp only [Option.some_bind]
  rw [stepsSection p.2.output_next_steps _ hc2]
  simp only [Option.some_bind]
  rw [warnSection p.2.output_warnings _ hc3]
  simp only [Option.some_bind]
  rw [expectLit_append]
  simp only [Option.some_bind]
  simp [expectedDep, mkData]

theorem parseDepLoop_emits (deps : List (String × PyTask))
    (hsafe : ∀ p ∈ deps, aposC ∉ p.1.data ∧ aposC ∉ (p.2.agent_type.value).data ∧
      ∀ f ∈ p.2.context_files, aposC ∉ f.data) (rest : List Char) :
    parseDepLoop (nlFlat (deps.flatMap depLines) ++ "  </dependencies>\n".data ++ rest)
      = some (deps.map expectedDep, rest) := by
  induction deps with
  | nil =>
    rw [parseDepLoop]
    have hpre : "  </dependencies>\n".data.isPrefixOf
        (nlFlat (([] : List (String × PyTask)).flatMap depLines) ++
          "  </dependencies>\n".data ++ rest) = true := by
      simpa [nlFlat] using isPrefixOf_append_self "  </dependencies>\n".data rest
    rw [if_pos hpre]
    have hdrop : (nlFlat (([] : List (String × PyTask)).flatMap depLines) ++
        "  </dependencies>\n".data ++ rest).drop "  </dependencies>\n".length = rest := by
      simp only [nlFlat, List.flatMap_nil, List.nil_append]
      have : "  </dependencies>\n".length = "  </dependencies>\n".data.length := rfl
      rw [this, List.drop_left]
    rw [hdrop]
    rfl
  | cons p ps ih =>
    have hsp := hsafe p (by simp)
    have hstart : nlFlat ((p :: ps).flatMap depLines) ++
        "  </dependencies>\n".data ++ rest
        = "    <dependency id=".data ++ ([aposC] ++ p.1.data ++ [aposC] ++
            " agent=".data ++ [aposC] ++ (p.2.agent_type.value).data ++ [aposC] ++
            ">".data ++ ['\n'] ++
            (nlFlat ((summaryLinesOf p.2.output_summary ++
              artifactLinesOf p.2.context_files ++
              stepLinesOf p.2.output_next_steps ++
              warnLinesOf p.2.output_warnings ++
              ["    </dependency>".data]) ++ ps.flatMap depLines) ++
              "  </dependencies>\n".data ++ rest)) := by
      simp [depLines, nlFlat, List.append_assoc]
    have hstream2 : nlFlat ((p :: ps).flatMap depLines) ++
        "  </dependencies>\n".data ++ rest
        = nlFlat (depLines p) ++
            (nlFlat (ps.flatMap depLines) ++ "  </dependencies>\n".data ++ rest) := by
      simp [nlFlat, List.append_assoc]
    have hdep := parseDependency_emits p hsp.1 hsp.2.1 hsp.2.2
        (nlFlat (ps.flatMap depLines) ++ "  </dependencies>\n".data ++ rest)
    have hlen : (nlFlat (ps.flatMap depLines) ++
        "  </dependencies>\n".data ++ rest).length
        < (nlFlat (depLines p) ++
            (nlFlat (ps.flatMap depLines) ++
              "  </dependencies>\n".data ++ rest)).length := by
      simp [nlFlat, depLines, List.length_append]
      omega
    rw [parseDepLoop]
    rw [if_neg (by
      rw [hstart,
        isPrefixOf_append_false _ _ _ 2 (by decide) (by decide) (by decide)]
      exact Bool.false_ne_true)]
    rw [hstream2, hdep]
    simp only []
    rw [dif_pos hlen, ih (fun q hq => hsafe q (by simp [hq]))]
    rfl

theorem agentValue_safe (a : AgentType) :
    ∀ c ∈ (a.value).data, c ≠ '<' ∧ c ≠ aposC := by
  cases a <;> decide

theorem ideaSection (oi : Option String) (T : List Char)
    (hT : ∃ r, T = "  <task_id>".data ++ r) :
    parseOptIdea (nlFlat (ideaLinesOf oi) ++ T) = some T := by
  have hfail : expectLit "  <project_idea>\n    " T = none := by
    obtain ⟨r, hr⟩ := hT
    subst hr
    exact expectLit_append_none _ _ r 3 (by decide) (by decide) (by decide)
  match oi with
  | none =>
    rw [show ideaLinesOf none = [] from rfl, show nlFlat [] = [] from rfl,
      List.nil_append, parseOptIdea, hfail]
  | some idea =>
    by_cases hi : idea = ""
    · subst hi
      rw [show ideaLinesOf (some "") = [] from rfl, show nlFlat [] = [] from rfl,
        List.nil_append, parseOptIdea, hfail]
    · rw [show ideaLinesOf (some idea)
          = ["  <project_idea>".data, "    ".data ++ escape_xml idea.data,
             "  </project_idea>".data] from by simp [ideaLinesOf, hi]]
      have hstream : nlFlat ["  <project_idea>".data,
          "    ".data ++ escape_xml idea.data, "  </project_idea>".data] ++ T
          = "  <project_idea>\n    ".data ++
              ((escape_xml idea.data ++ ('\n' :: ' ' :: ' ' :: [])) ++
                "</project_idea>\n".data ++ T) := by
        rw [show ("  <project_idea>\n    ".data : List Char)
            = "  <project_idea>".data ++ ['\n'] ++ "    ".data from rfl]
        rw [show ("</project_idea>\n".data : List Char)
            = "</project_idea>".data ++ ['\n'] from rfl]
        rw [show ("  </project_idea>".data : List Char)
            = ' ' :: ' ' :: "</project_idea>".data from rfl]
        simp [nlFlat, List.append_assoc]
      rw [hstream, parseOptIdea, expectLit_append]
      have hnolt : '<' ∉ escape_xml idea.data ++ ('\n' :: ' ' :: ' ' :: []) := by
        intro hmem
        rcases List.mem_append.mp hmem with h | h
        · exact escape_no_lt idea.data h
        · simp at h
      simp only []
      rw [splitFirst_boundary '<'
        ['/', 'p', 'r', 'o', 'j', 'e', 'c', 't', '_', 'i', 'd', 'e', 'a', '>', '\n']
        _ T hnolt]
      rfl

theorem depsSection (deps : List (String × PyTask))
    (hsafe : ∀ p ∈ deps, aposC ∉ p.1.data ∧ aposC ∉ (p.2.agent_type.value).data ∧
      ∀ f ∈ p.2.context_files, aposC ∉ f.data)
    (T : List Char)
    (hT : (∃ r, T = "  <files>".data ++ r) ∨
          (∃ r, T = "</task_context>".data ++ r)) :
    parseOptDeps (nlFlat (depBlockLinesOf deps) ++ T)
      = some (deps.map expectedDep, T) := by
  by_cases hd : deps = []
  · subst hd
    have hfail : expectLit "  <dependencies>\n" T = none := by
      rcases hT with ⟨r, hr⟩ | ⟨r, hr⟩ <;> subst hr
      · exact expectLit_append_none _ _ r 3 (by decide) (by decide) (by decide)
      · exact expectLit_append_none _ _ r 0 (by decide) (by decide) (by decide)
    rw [show depBlockLinesOf [] = [] from rfl, show nlFlat [] = [] from rfl,
      List.nil_append, parseOptDeps, hfail]
    rfl
  · rw [show depBlockLinesOf deps
        = "  <dependencies>".data :: deps.flatMap depLines ++
            ["  </dependencies>".data] from by simp [depBlockLinesOf, hd]]
    have hstream : nlFlat ("  <dependencies>".data :: deps.flatMap depLines ++
        ["  </dependencies>".data]) ++ T
        = "  <dependencies>\n".data ++
            (nlFlat (deps.flatMap depLines) ++ "  </dependencies>\n".data ++ T) := by
      rw [show ("  <dependencies>\n".data : List Char)
          = "  <dependencies>".data ++ ['\n'] from rfl]
      rw [show ("  </dependencies>\n".data : List Char)
          = "  </dependencies>".data ++ ['\n'] from rfl]
      simp [nlFlat, List.append_assoc]
    rw [hstream, parseOptDeps, expectLit_append]
    exact parseDepLoop_emits deps hsafe T

theorem filesSection (files : List String) (hfs : ∀ f ∈ files, aposC ∉ f.data)
    (T : List Char) (hT : ∃ r, T = "</task_context>".data ++ r) :
    parseOptFiles (nlFlat (fileBlockLinesOf files) ++ T) = some (files, T) := by
  by_cases hf : files = []
  · subst hf
    have hfail : expectLit "  <files>\n" T = none := by
      obtain ⟨r, hr⟩ := hT
      subst hr
      exact expectLit_append_none _ _ r 0 (by decide) (by decide) (by decide)
    rw [show fileBlockLinesOf [] = [] from rfl, show nlFlat [] = [] from rfl,
      List.nil_append, parseOptFiles, hfail]
  · rw [show fileBlockLinesOf files
        = "  <files>".data ::
            (files.map (fun f => "    <file path=".data ++ [aposC] ++ f.data ++
              [aposC] ++ "/>".data)) ++ ["  </files>".data]
          from by simp [fileBlockLinesOf, hf]]
    have hstream : nlFlat ("  <files>".data ::
        (files.map (fun f => "    <file path=".data ++ [aposC] ++ f.data ++
          [aposC] ++ "/>".data)) ++ ["  </files>".data]) ++ T
        = "  <files>\n".data ++
            (nlFlat (files.map (fun f => "    <file path=".data ++ [aposC] ++
              f.data ++ [aposC] ++ "/>".data)) ++ "  </files>\n".data ++ T) := by
      rw [show ("  <files>\n".data : List Char) = "  <files>".data ++ ['\n'] from rfl]
      rw [show ("  </files>\n".data : List Char) = "  </files>".data ++ ['\n'] from rfl]
      simp [nlFlat, List.append_assoc]
    rw [hstream, parseOptFiles, expectLit_append]
    exact parsePathLoop_emits _ _
      (fun r => isPrefixOf_append_false _ _ r 2 (by decide) (by decide) (by decide))
      files hfs T

/-- C6 (amended).  Serializing a task context together with its
prerequisite tasks and structurally parsing the payload recovers the task
id, the role, and every prerequisite entry (its key, role, summary,
artifact paths, next steps and warnings) — with summary, next steps,
warnings and project idea allowed to contain arbitrary text including
reserved structural characters such as angle brackets and ampersands,
which the serializer escapes.  The fields the serializer embeds verbatim
and unescaped (task id, description, prerequisite keys, artifact paths)
must be free of the five XML-reserved characters; the counterexample shows
the round trip is unrecoverable without that restriction. -/
theorem serialize_parse_roundtrip (task : PyTask)
    (dependency_tasks : List (String × PyTask)) (project_idea : Option String)
    (hid : XmlSafe task.id) (hdesc : XmlSafe task.description)
    (hfiles : ∀ f ∈ task.context_files, XmlSafe f)
    (hdeps : ∀ p ∈ dependency_tasks, XmlSafe p.1 ∧
      ∀ f ∈ p.2.context_files, XmlSafe f) :
    parseTaskContext
      (ContextSerializer.serialize task dependency_tasks project_idea).data
      = some { task_id := task.id, agent_role := task.agent_type.value,
               dependencies := dependency_tasks.map expectedDep } := by
  have hidlt : '<' ∉ task.id.data := fun h => ((hid _ h).1) rfl
  have hdesclt : '<' ∉ task.description.data := fun h => ((hdesc _ h).1) rfl
  have hrolelt : '<' ∉ (task.agent_type.value).data :=
    fun h => ((agentValue_safe task.agent_type _ h).1) rfl
  have hfap : ∀ f ∈ task.context_files, aposC ∉ f.data :=
    fun f hf hmem => ((hfiles f hf _ hmem).2.2.2.2) rfl
  have hdsafe : ∀ p ∈ dependency_tasks, aposC ∉ p.1.data ∧
      aposC ∉ (p.2.agent_type.value).data ∧
      ∀ f ∈ p.2.context_files, aposC ∉ f.data := by
    intro p hp
    refine ⟨fun hmem => (((hdeps p hp).1 _ hmem).2.2.2.2) rfl,
      fun hmem => ((agentValue_safe p.2.agent_type _ hmem).2) rfl,
      fun f hf hmem => (((hdeps p hp).2 f hf _ hmem).2.2.2.2) rfl⟩
  have hcF : ∃ r, ("</task_context>".data ++ ([] : List Char)) = "</task_context>".data ++ r := ⟨[], rfl⟩
  have hcD : (∃ r, (nlFlat (fileBlockLinesOf task.context_files) ++ ("</task_context>".data ++ ([] : List Char))) = "  <files>".data ++ r) ∨
      (∃ r, (nlFlat (fileBlockLinesOf task.context_files) ++ ("</task_context>".data ++ ([] : List Char))) = "</task_context>".data ++ r) := by
    by_cases hf : task.context_files = []
    · rw [hf, show fileBlockLinesOf [] = [] from rfl, show nlFlat [] = [] from rfl,
        List.nil_append]
      exact Or.inr hcF
    · left
      rw [show fileBlockLinesOf task.context_files
          = "  <files>".data ::
              (task.context_files.map (fun f => "    <file path=".data ++ [aposC] ++
                f.data ++ [aposC] ++ "/>".data)) ++ ["  </files>".data]
            from by simp [fileBlockLinesOf, hf]]
      exact startsWith_of_cons _ _ _
  have hcT : ∃ r, ("  <task_id>".data ++ (task.id.data ++ "</task_id>\n".data ++ ("  <agent_role>".data ++ ((task.agent_type.value).data ++ "</agent_role>\n".data ++ ("  <description>".data ++ (task.description.data ++ "</description>\n".data ++ (nlFlat (depBlockLinesOf dependency_tasks) ++ (nlFlat (fileBlockLinesOf task.context_files) ++ ("</task_context>".data ++ ([] : List Char)))))))))) = "  <task_id>".data ++ r :=
    ⟨task.id.data ++ "</task_id>\n".data ++ ("  <agent_role>".data ++ ((task.agent_type.value).data ++ "</agent_role>\n".data ++ ("  <description>".data ++ (task.description.data ++ "</description>\n".data ++ (nlFlat (depBlockLinesOf dependency_tasks) ++ (nlFlat (fileBlockLinesOf task.context_files) ++ ("</task_context>".data ++ ([] : List Char)))))))), rfl⟩
  have hstream : (ContextSerializer.serialize task dependency_tasks project_idea).data
      = "<task_context>\n".data ++ (nlFlat (ideaLinesOf project_idea) ++ ("  <task_id>".data ++ (task.id.data ++ "</task_id>\n".data ++ ("  <agent_role>".data ++ ((task.agent_type.value).data ++ "</agent_role>\n".data ++ ("  <description>".data ++ (task.description.data ++ "</description>\n".data ++ (nlFlat (depBlockLinesOf dependency_tasks) ++ (nlFlat (fileBlockLinesOf task.context_files) ++ ("</task_context>".data ++ ([] : List Char))))))))))) := by
    show joinNL (xmlLines task dependency_tasks project_idea) = _
    have hx : xmlLines task dependency_tasks project_idea
        = ("<task_context>".data ::
            (ideaLinesOf project_idea ++
             ["  <task_id>".data ++ task.id.data ++ "</task_id>".data,
              "  <agent_role>".data ++ (task.agent_type.value).data ++
                "</agent_role>".data,
              "  <description>".data ++ task.description.data ++
                "</description>".data] ++
             depBlockLinesOf dependency_tasks ++
             fileBlockLinesOf task.context_files)) ++ ["</task_context>".data] := by
      simp [xmlLines, List.append_assoc]
    rw [hx, joinNL_flat]
    rw [show ("<task_context>\n".data : List Char)
        = "<task_context>".data ++ ['\n'] from rfl]
    rw [show ("</task_id>\n".data : List Char)
        = "</task_id>".data ++ ['\n'] from rfl]
    rw [show ("</agent_role>\n".data : List Char)
        = "</agent_role>".data ++ ['\n'] from rfl]
    rw [show ("</description>\n".data : List Char)
        = "</description>".data ++ ['\n'] from rfl]
    simp [nlFlat, List.append_assoc]
  rw [hstream, parseTaskContext, expectLit_append]
  simp only [Option.bind_eq_bind, Option.some_bind]
  rw [ideaSection project_idea _ hcT]
  simp only [Option.some_bind]
  rw [expectLit_append]
  simp only [Option.some_bind]
  rw [splitFirst_boundary '<'
    ['/', 't', 'a', 's', 'k', '_', 'i', 'd', '>', '\n'] task.id.data _ hidlt]
  simp only [Option.some_bind]
  rw [expectLit_append]
  simp only [Option.some_bind]
  rw [splitFirst_boundary '<'
    ['/', 'a', 'g', 'e', 'n', 't', '_', 'r', 'o', 'l', 'e', '>', '\n']
    (task.agent_type.value).data _ hrolelt]
  simp only [Option.some_bind]
  rw [expectLit_append]
  simp only [Option.some_bind]
  rw [splitFirst_boundary '<'
    ['/', 'd', 'e', 's', 'c', 'r', 'i', 'p', 't', 'i', 'o', 'n', '>', '\n']
    task.description.data _ hdesclt]
  simp only [Option.some_bind]
  rw [depsSection dependency_tasks hdsafe _ hcD]
  simp only [Option.some_bind]
  rw [filesSection task.context_files hfap _ hcF]
  simp only [Option.some_bind]
  rw [expectLit_append]
  simp only [Option.some_bind]
  simp [mkData]

set_option maxRecDepth 8192 in
/-- C6 counterexample.  Two tasks with different ids serialize to the
very same payload, because `serialize` embeds the task id and the
description verbatim with no escaping: the id of the first task smuggles
closing and opening tags so that its payload coincides with that of the
second task.  No structural parse of the payload can recover the task id
of both tasks, so the claim — round-trip recovery for arbitrary field
text — is false as stated. -/
theorem serialize_roundtrip_counterexample :
    ContextSerializer.serialize
      { id := "i</task_id>\n  <agent_role>PM</agent_role>\n  <description>d</description>\n  <task_id>i",
        description := "d", agent_type := AgentType.PM, context_files := [] } [] none
    = ContextSerializer.serialize
      { id := "i",
        description := "d</description>\n  <task_id>i</task_id>\n  <agent_role>PM</agent_role>\n  <description>d",
        agent_type := AgentType.PM, context_files := [] } [] none ∧
    ("i</task_id>\n  <agent_role>PM</agent_role>\n  <description>d</description>\n  <task_id>i" : String) ≠ "i" := by
  exact ⟨by decide, by decide⟩

/-- Witness for C6: a concrete task with one prerequisite whose summary,
next steps and warnings contain angle brackets, ampersands and quotes, a
two-line project idea with double quotes, and XML-safe ids and paths. -/
theorem serialize_parse_roundtrip_witness :
    parseTaskContext
      (ContextSerializer.serialize
        { id := "0001", description := "Design the system",
          agent_type := AgentType.ARCHITECT, context_files := ["docs/idea.md"] }
        [("0000",
          { id := "0000", description := "plan", agent_type := AgentType.PM,
            context_files := ["plan.md"],
            output_summary := some "Did <planning> & more",
            output_next_steps := ["step <1>", "step & 2"],
            output_warnings := ["watch 'quotes'"] })]
        (some "Build a \"great\" tool\nwith care")).data
      = some { task_id := "0001", agent_role := "ARCHITECT",
               dependencies := [expectedDep ("0000",
                 { id := "0000", description := "plan", agent_type := AgentType.PM,
                   context_files := ["plan.md"],
                   output_summary := some "Did <planning> & more",
                   output_next_steps := ["step <1>", "step & 2"],
                   output_warnings := ["watch 'quotes'"] })] } := by
  apply serialize_parse_roundtrip
  · intro c hc
    fin_cases hc <;> decide
  · intro c hc
    fin_cases hc <;> decide
  · intro f hf
    fin_cases hf
    intro c hc
    fin_cases hc <;> decide
  · intro p hp
    fin_cases hp
    constructor
    · intro c hc
      fin_cases hc <;> decide
    · intro f hf
      fin_cases hf
      intro c hc
      fin_cases hc <;> decide
